import Mathlib

/-!
# Shallow embedding of the itowns `View` class (`Core/View.js`)

This file embeds, in Lean 4, the parts of `View.js` that the verified
properties talk about:

* coordinate conversion (`viewToNormalizedCoords` / `normalizedToViewCoords`),
* depth picking guard logic (`getPickingPositionFromDepth`),
* `resize` and `notifyChange`,
* the layer registry (`addLayer`, `removeLayer`, `getLayers`,
  `getLayerById`) together with the process-wide `viewers` array used for
  cross-view source-cache accounting and `dispose`,
* the frame-requester registry (`addFrameRequester`,
  `removeFrameRequester`, `execFrameRequesters`,
  `_executeFrameRequestersRemovals`).

JavaScript numbers used in exact arithmetic positions are modelled as `ℚ`
(or `Int`/`Nat` where the source only ever holds integers); JavaScript
`undefined` is modelled with `Option`.  Code of collaborating classes that
is not part of the file (`Layer.attach`, `Layer.detach`, the `whenReady`
promise machinery, `MainLoop.scheduleViewUpdate`) is modelled from the
specification and marked as such in its doc comment.
-/

namespace ItownsView

/-- A 2-component vector over exact rationals (`THREE.Vector2`). -/
structure Vec2 where
  x : ℚ
  y : ℚ
deriving DecidableEq, Repr

/-- A 3-component vector over exact rationals (`THREE.Vector3`). -/
structure Vec3 where
  x : ℚ
  y : ℚ
  z : ℚ
deriving DecidableEq, Repr

/-- Squared euclidean norm of a `Vec3`; `target.length()` in the source is
its square root, so `length > c` (for `c ≥ 0`) is expressed here as
`lengthSq > c ^ 2`. -/
def Vec3.lengthSq (v : Vec3) : ℚ :=
  v.x ^ 2 + v.y ^ 2 + v.z ^ 2

/-! ## Coordinate conversion

`View.viewToNormalizedCoords` / `View.normalizedToViewCoords`.  The camera
width and height are passed explicitly (`this.camera.width`,
`this.camera.height` in the source). -/

/-- `View.viewToNormalizedCoords`:
`target.x = 2 * (viewCoords.x / this.camera.width) - 1;`
`target.y = -2 * (viewCoords.y / this.camera.height) + 1;`. -/
def viewToNormalizedCoords (width height : ℚ) (viewCoords : Vec2) : Vec2 :=
  { x := 2 * (viewCoords.x / width) - 1
    y := -2 * (viewCoords.y / height) + 1 }

/-- `View.normalizedToViewCoords`:
`_eventCoords.x = (ndcCoords.x + 1) * 0.5 * this.camera.width;`
`_eventCoords.y = (ndcCoords.y - 1) * -0.5 * this.camera.height;`. -/
def normalizedToViewCoords (width height : ℚ) (ndcCoords : Vec2) : Vec2 :=
  { x := (ndcCoords.x + 1) * (1 / 2) * width
    y := (ndcCoords.y - 1) * (-(1 / 2)) * height }

/-! ## Depth picking guards

`View.getPickingPositionFromDepth`.  The graphics-engine work in the middle
of the function (depth-buffer read-back and the two unprojection branches)
is external to the guard logic the spec talks about; it is abstracted by
passing the unprojected world position (`target` just before the final
sanity check) as the `computedTarget` argument.  The two guards — the
early return when there is no tile layer or no root node, and the final
sanity bound `target.length() > 10000000` — are translated literally. -/

/-- Truthiness of `this.tileLayer.level0Nodes[0]` in the source: the list of
root nodes is modelled as a list of truthiness flags. -/
def level0NodesHeadTruthy (level0Nodes : List Bool) : Bool :=
  level0Nodes.getD 0 false

/-- `View.getPickingPositionFromDepth`, guard structure.
`hasTileLayer` is the truthiness of `this.tileLayer`; `level0Nodes` the
truthiness of each entry of `this.tileLayer.level0Nodes`; `computedTarget`
the unprojected world position produced by the abstracted graphics code.
Returns `none` for the source's `undefined` results. -/
def getPickingPositionFromDepth (hasTileLayer : Bool) (level0Nodes : List Bool)
    (computedTarget : Vec3) : Option Vec3 :=
  if !hasTileLayer || level0Nodes.length == 0 || !(level0NodesHeadTruthy level0Nodes) then
    none
  else if computedTarget.lengthSq > 10000000 ^ 2 then
    none
  else
    some computedTarget

/-! ## `resize` and `notifyChange`

The state below holds exactly the fields these two methods read or write:
the `#fullSizeDepthBuffer` (only its length and its `needsUpdate` flag
matter to them; a freshly allocated `Uint8Array` has no `needsUpdate`
property, i.e. it is falsy), the engine and camera dimensions, the
`_changeSources` set, and the scheduling state of the main loop. -/

/-- A change source as inspected by `notifyChange`: its identity (the
`_changeSources` set is identity-based) and the two flags the method
reads. -/
structure ChangeSource where
  sid : Nat
  isTileMesh : Bool
  isCamera : Bool
deriving DecidableEq, Repr

/-- The view's `this.camera3D` (a `THREE.Camera`, whose `isCamera` flag is
always true), the change source passed by `resize`. -/
def camera3DSource : ChangeSource :=
  { sid := 0, isTileMesh := false, isCamera := true }

/-- State touched by `View.resize` / `View.notifyChange`.  The main-loop
fields (`mlScheduled`, `mlNeedsRedraw`, `framesRequested`) belong to the
`MainLoop` collaborator and are modelled from the spec (§4.3, §4.4). -/
structure RState where
  domClientWidth : Int
  domClientHeight : Int
  fullSizeDepthBufferLen : Int
  depthBufferNeedsUpdate : Bool
  engineWidth : Int
  engineHeight : Int
  cameraWidth : Int
  cameraHeight : Int
  xrIsPresenting : Bool
  changeSources : List ChangeSource
  mlScheduled : Bool
  mlNeedsRedraw : Bool
  framesRequested : Nat
deriving DecidableEq, Repr

/-- Observable calls made during one `resize` invocation. -/
structure RTrace where
  notifyChangeCalls : Nat
  warned : Bool
deriving DecidableEq, Repr

/-- `Set.prototype.add`: identity-based insertion, no duplicates. -/
def setAdd (l : List ChangeSource) (cs : ChangeSource) : List ChangeSource :=
  if cs ∈ l then l else l ++ [cs]

/-- Modelled from the spec: `MainLoop.scheduleViewUpdate` (the `MainLoop`
class is not among the provided sources).  Per §4.4 `notifyChange` "asks
MainLoop to schedule an update" and per §4.3 the loop runs "one cycle per
animation frame when the View is dirty" and stays paused otherwise: the
redraw wish is accumulated, and a browser animation frame is requested
only when no update is scheduled yet. -/
def scheduleViewUpdate (s : RState) (needsRedraw : Bool) : RState :=
  let s1 := { s with mlNeedsRedraw := s.mlNeedsRedraw || needsRedraw }
  if s1.mlScheduled then s1
  else { s1 with mlScheduled := true, framesRequested := s1.framesRequested + 1 }

/-- `View.notifyChange(changeSource = undefined, needsRedraw = true)`:
records the source in `_changeSources`, marks the full-size depth buffer
stale when the source is a tile mesh or a camera (and no XR session is
presenting), then asks the main loop to schedule an update. -/
def notifyChange (s : RState) (changeSource : Option ChangeSource)
    (needsRedraw : Bool) : RState :=
  let s1 :=
    match changeSource with
    | some cs =>
        let s2 := { s with changeSources := setAdd s.changeSources cs }
        if !s2.xrIsPresenting && (cs.isTileMesh || cs.isCamera) then
          { s2 with depthBufferNeedsUpdate := true }
        else s2
    | none => s
  scheduleViewUpdate s1 needsRedraw

/-- `View.resize(width, height)`.  `none` models an `undefined` argument
(defaulted to the `viewerDiv` client size); a negative dimension logs a
warning and skips the resize.  Reallocating `#fullSizeDepthBuffer` yields
a fresh `Uint8Array`, whose `needsUpdate` property is absent (falsy).
`camera.resize` and `gfxEngine.onWindowResize` are collaborator calls
(§6) modelled as storing the new dimensions. -/
def View.resize (s : RState) (width height : Option Int) : RState × RTrace :=
  if (width.elim false (· < 0)) || (height.elim false (· < 0)) then
    (s, { notifyChangeCalls := 0, warned := true })
  else
    let w := width.getD s.domClientWidth
    let h := height.getD s.domClientHeight
    let s1 := { s with fullSizeDepthBufferLen := 4 * w * h,
                       depthBufferNeedsUpdate := false,
                       engineWidth := w, engineHeight := h }
    if w != 0 && h != 0 then
      let s2 := { s1 with cameraWidth := w, cameraHeight := h }
      (notifyChange s2 (some camera3DSource) true,
       { notifyChangeCalls := 1, warned := false })
    else
      (s1, { notifyChangeCalls := 0, warned := false })

/-! ## The layer registry

`View.#layers`, `getLayers`, `getLayerById`, `addLayer`, `removeLayer`,
`dispose` and the module-level `viewers` array.  A `Layer` carries exactly
the fields these methods read: its id, the identity (`uid`) and `crs` of
its `source`, the capability flags the duck typing inspects, the color
compositing `sequence` (absent — `undefined` — until `addLayer` assigns
it), and the fields `_preprocessLayer` reads or writes.  `getLayers` walks
roots and their directly attached layers, one level deep, exactly as the
source does. -/

/-- A spatial extent; `_preprocessLayer` only ever reads its `crs`. -/
structure ExtentM where
  crs : String
deriving DecidableEq, Repr

/-- A layer, restricted to the fields `View.js` reads or writes.
`sequence` is `none` while the JS property is `undefined`. -/
structure Layer where
  isLayer : Bool
  id : String
  sourceUid : Nat
  sourceCrs : Option String
  sourceExtent : Option ExtentM
  crs : Option String
  extent : Option ExtentM
  tileMatrixSets : Option (List String)
  isGeometryLayer : Bool
  isLabelLayer : Bool
  isColorLayer : Bool
  isTiledGeometryLayer : Bool
  isAtmosphere : Bool
  hasUpdate : Bool
  hasPreUpdate : Bool
  sequence : Option Nat
deriving DecidableEq, Repr

/-- A root entry of `View.#layers` together with its `attachedLayers`
(`getLayers` only ever descends one level into `attachedLayers`). -/
structure RootLayer where
  layer : Layer
  attachedLayers : List Layer
deriving DecidableEq, Repr

/-- One `View`: its id (`View.id`, unique by the module-level counter),
its `referenceCrs`, its `#layers`, and the frame-requester registry
(`_frameRequesters` / `_delayedFrameRequesterRemoval`). -/
structure FR where
  frid : Nat
  removesSelf : Bool
deriving DecidableEq, Repr

structure ViewState where
  vid : Nat
  referenceCrs : String
  layers : List RootLayer
  frameRequesters : List (String × List FR)
  delayedRemovals : List (String × FR)
deriving DecidableEq, Repr

/-- The module-level `viewers` array: every not-yet-disposed view. -/
structure GlobalState where
  views : List ViewState
deriving DecidableEq, Repr

/-- A JavaScript exception crossing a method boundary. -/
inductive JsError
  | error (msg : String)
deriving DecidableEq, Repr

/-- The entries `getLayers` pushes for one root: the root itself if it
passes the filter, then its attached layers that pass the filter. -/
def RootLayer.entriesFiltered (p : Layer → Bool) (root : RootLayer) : List Layer :=
  (if p root.layer then [root.layer] else []) ++ root.attachedLayers.filter p

/-- `View.getLayers(filter)`; the absent-filter call is `getLayers v
(fun _ => true)`. -/
def getLayers (v : ViewState) (p : Layer → Bool) : List Layer :=
  (v.layers.map (RootLayer.entriesFiltered p)).flatten

/-- `View.getLayerById(layerId)`: `this.getLayers(l => l.id === layerId)[0]`,
`undefined` (`none`) when the id is unknown. -/
def getLayerById (v : ViewState) (layerId : String) : Option Layer :=
  (getLayers v (fun l => l.id == layerId)).head?

/-- Locate a layer by id the way `getLayerById` scans (roots in order,
each root before its attached layers) and report its parent: `none` for a
root layer, `some i` for a layer attached under the root at position `i`
(`layer.parent` in the source, which `attach` sets to the owning root). -/
def findLayerEntry : List RootLayer → String → Option (Layer × Option Nat)
  | [], _ => none
  | r :: rs, lid =>
    if r.layer.id == lid then
      some (r.layer, none)
    else
      match r.attachedLayers.find? (fun l => l.id == lid) with
      | some l => some (l, some 0)
      | none => (findLayerEntry rs lid).map (fun e => (e.1, e.2.map (· + 1)))

/-- Modelled from the spec: `Layer.detach` (the `Layer` class is not among
the provided sources) removes the child from the parent's
`attachedLayers` and reports success (§3: a Layer "exposes attach/detach
for nested layers").  `detachAt roots i lid` detaches the layer with id
`lid` from the root at position `i`. -/
def detachAt : List RootLayer → Nat → String → List RootLayer
  | [], _, _ => []
  | r :: rs, 0, lid =>
      { r with attachedLayers := r.attachedLayers.eraseP (fun l => l.id == lid) } :: rs
  | r :: rs, i + 1, lid => r :: detachAt rs i lid

/-- The color-sequence renumbering step of `removeLayer`: every color
layer whose `sequence` is strictly greater than the removed layer's is
decremented.  A JS comparison against an `undefined` sequence is false,
so layers without a sequence are left alone. -/
def decSeqAfter (removed : Layer) (l : Layer) : Layer :=
  if l.isColorLayer then
    match l.sequence, removed.sequence with
    | some s, some r => if r < s then { l with sequence := some (s - 1) } else l
    | _, _ => l
  else l

/-- Apply a per-layer update to every layer of the view (the source
mutates the layer objects returned by `getLayers` in place). -/
def ViewState.mapLayers (f : Layer → Layer) (v : ViewState) : ViewState :=
  { v with layers := v.layers.map (fun r =>
      { layer := f r.layer, attachedLayers := r.attachedLayers.map f }) }

/-- The cross-view shared-source count of `removeLayer`:
`for (const view of viewers) sharedSourceCount += view.getLayers(l =>
l.source.uid == layer.source.uid && l.crs == layer.crs).length`. -/
def sharedSourceCount (g : GlobalState) (layer : Layer) : Nat :=
  (g.views.map (fun w =>
    (getLayers w (fun l => l.sourceUid == layer.sourceUid && l.crs == layer.crs)).length)).sum

/-- Observable effects of one `removeLayer` call.
`onLayerRemovedUnusedCrs = some u` records the `source.onLayerRemoved`
call with `unusedCrs = u` (`u = none` models `unusedCrs: undefined`). -/
structure RemoveTrace where
  onLayerRemovedUnusedCrs : Option (Option String)
  notifiedCamera : Bool
  layerRemovedEvent : Option String
deriving DecidableEq, Repr

/-- `View.removeLayer(layerId)` on the view at position `vi` of the
`viewers` array.  `layer.delete(clearCache)` (the `Layer` class is not
among the provided sources) releases the layer's TileNode tree per the
spec (§3) and does not touch the view's layer lists, so it has no effect
on this state.  Event listeners of the dispatched `layer-removed` event
are not modelled; the dispatch is recorded in the trace.  A missing view
index cannot arise in JS (the method runs on a view object) and is
reported as an error. -/
def removeLayerG (g : GlobalState) (vi : Nat) (layerId : String) :
    Except JsError (GlobalState × Bool × RemoveTrace) :=
  match g.views[vi]? with
  | none => .error (.error "model artifact: no view at this index")
  | some v =>
    match findLayerEntry v.layers layerId with
    | none => .error (.error (layerId ++ " does not exist"))
    | some (layer, parentIdx) =>
      let v1 : ViewState :=
        match parentIdx with
        | some pi => { v with layers := detachAt v.layers pi layerId }
        | none =>
            { v with layers :=
                v.layers.eraseP (fun l => l.layer.id == layerId) }
      let v2 := if layer.isColorLayer then v1.mapLayers (decSeqAfter layer) else v1
      let g1 : GlobalState := { g with views := g.views.set vi v2 }
      let unused : Option String :=
        if sharedSourceCount g1 layer = 0 then layer.crs else none
      .ok (g1, true,
        { onLayerRemovedUnusedCrs := some unused
          notifiedCamera := true
          layerRemovedEvent := some layerId })

/-- Spec-side predicate (§8, "Cross-view cache"): no layer of any active
view uses a source with the same `uid` together with the same `crs` as
the removed layer.  This is the condition under which the shared cache
entry may be evicted. -/
def noViewUsesSourceCrs (g : GlobalState) (layer : Layer) : Prop :=
  ∀ w ∈ g.views, ∀ l ∈ getLayers w (fun _ => true),
    ¬(l.sourceUid = layer.sourceUid ∧ l.crs = layer.crs)

instance (g : GlobalState) (layer : Layer) : Decidable (noViewUsesSourceCrs g layer) := by
  unfold noViewUsesSourceCrs
  infer_instance

/-! ## `_preprocessLayer` and `addLayer` -/

/-- The result `addLayer` hands back.  Modelled from the spec for the
promise machinery of the `Layer` class (not among the provided sources):
`layer._reject(err)` rejects the layer's `whenReady` promise, which is
"the only externally observed readiness signal" (§4.4), so a rejecting
path yields `rejected` and the successful path yields the still-pending
`whenReady` promise (`pending`). -/
inductive AddResult
  | rejected (msg : String)
  | pending
deriving DecidableEq, Repr

/-- The extent-inheritance head of `_preprocessLayer`:
`if (parentLayer && !layer.extent) { layer.extent = parentLayer.extent;
if (source && !source.extent) { source.extent = parentLayer.extent; } }`. -/
def inheritExtent (layer : Layer) (parentLayer : Option Layer) : Layer :=
  match parentLayer with
  | some p =>
      if layer.extent.isNone then
        { layer with
            extent := p.extent
            sourceExtent :=
              if layer.sourceExtent.isNone then p.extent else layer.sourceExtent }
      else layer
  | none => layer

/-- The CRS-resolution tail of `_preprocessLayer` (after extent
inheritance). -/
def preprocessCrs (referenceCrs : String) (layer1 : Layer)
    (parentLayer : Option Layer) : Except JsError Layer :=
  if layer1.isGeometryLayer && !layer1.isLabelLayer then
    .ok { layer1 with crs := some referenceCrs }
  else if layer1.crs.isNone then
    match parentLayer with
    | some p =>
        match p.tileMatrixSets, layer1.sourceCrs with
        | some tms, some sc =>
            if tms.contains sc then .ok { layer1 with crs := some sc }
            else
              match p.extent with
              | some e => .ok { layer1 with crs := some e.crs }
              | none => .error (.error "TypeError: parentLayer.extent is undefined")
        | _, _ =>
            match p.extent with
            | some e => .ok { layer1 with crs := some e.crs }
            | none => .error (.error "TypeError: parentLayer.extent is undefined")
    | none => .ok { layer1 with crs := none }
  else
    .ok layer1

/-- `_preprocessLayer(view, layer, parentLayer)`, restricted to the parts
that touch modelled fields: extent inheritance then CRS resolution.  Label
layer derivation (`layer.addLabelLayer`) only schedules asynchronous work
on `layer.whenReady` and registers listeners, and `_setup` belongs to the
external 3D-tiles collaborator; neither touches the modelled state
synchronously.  `parentLayer.extent.crs` on a parent without extent is a
JS `TypeError`, modelled as an error. -/
def preprocessLayer (referenceCrs : String) (layer : Layer)
    (parentLayer : Option Layer) : Except JsError Layer :=
  preprocessCrs referenceCrs (inheritExtent layer parentLayer) parentLayer

/-- Attach a child under the first root with the given id (`attach` on the
`Layer` collaborator is modelled from the spec: it appends the child to
the parent's `attachedLayers` and records the parent as `child.parent`,
which this model derives from the structure). -/
def attachInto : List RootLayer → String → Layer → List RootLayer
  | [], _, _ => []
  | r :: rs, pid, child =>
    if r.layer.id == pid then
      { r with attachedLayers := r.attachedLayers ++ [child] } :: rs
    else
      r :: attachInto rs pid child

/-- `View.addLayer(layer, parentLayer)`.  The parent argument is the id of
a root layer of this view (the only way the view's own state is reached;
a caller-supplied foreign parent object would leave the view unchanged
and is reported as a model artifact error).  A fresh `GeometryLayer`
carries an empty `attachedLayers` list (spec §3: a Layer is "created
detached"), so a newly pushed root starts with no attached layers.  The
`Promise.all(layer._promises)` continuation (readiness events,
`notifyChange`) is asynchronous and not part of the synchronous state
transition. -/
def addLayer (v : ViewState) (layer : Layer) (parent : Option String) :
    Except JsError (AddResult × ViewState) :=
  if !layer.isLayer then
    .ok (.rejected "Add Layer type object", v)
  else
    match getLayerById v layer.id with
    | some _ =>
        .ok (.rejected ("Invalid id " ++ layer.id ++ ": id already used"), v)
    | none =>
      match parent with
      | some pid =>
          match (v.layers.find? (fun r => r.layer.id == pid)) with
          | none => .error (.error "model artifact: parent is not a root layer of this view")
          | some _ => do
            let layer1 ← preprocessLayer v.referenceCrs layer
              ((v.layers.find? (fun r => r.layer.id == pid)).map (·.layer))
            let layer2 :=
              if layer1.isColorLayer then
                { layer1 with sequence := some (getLayers v (fun l => l.isColorLayer)).length }
              else layer1
            .ok (.pending, { v with layers := attachInto v.layers pid layer2 })
      | none => do
          let layer1 ← preprocessLayer v.referenceCrs layer none
          if !layer1.hasUpdate then
            .ok (.rejected "Cant add GeometryLayer: missing a update function", v)
          else if !layer1.hasPreUpdate then
            .ok (.rejected "Cant add GeometryLayer: missing a preUpdate function", v)
          else
            .ok (.pending,
              { v with layers := v.layers ++ [{ layer := layer1, attachedLayers := [] }] })

/-! ## The frame-requester registry

`_frameRequesters` maps an attach-point name to its requester list;
`_delayedFrameRequesterRemoval` is the pending-removal queue.  A
requester is identified by `frid`; the only callback behaviour the
verified property exercises is self-removal, so a requester's body is
modelled as: call `removeFrameRequester(when, self)` when `removesSelf`
is set, otherwise do nothing.  Neither behaviour mutates the live
requester list (removal is deferred), which is exactly the invariant the
source relies on while iterating. -/

/-- Update the binding of a key in the `_frameRequesters` object. -/
def assocSet (m : List (String × List FR)) (k : String) (frs : List FR) :
    List (String × List FR) :=
  m.map (fun kv => if kv.1 == k then (k, frs) else kv)

/-- `View.removeFrameRequester(when, frameRequester)`.  Reading
`.includes` of an absent list is a JS `TypeError`; an unregistered
requester logs `console.error` (the returned flag) and queues nothing. -/
def removeFrameRequesterV (v : ViewState) (whenKey : String) (fr : FR) :
    Except JsError (ViewState × Bool) :=
  match v.frameRequesters.lookup whenKey with
  | none => .error (.error "TypeError: cannot read includes of undefined")
  | some frs =>
    if fr ∈ frs then
      .ok ({ v with delayedRemovals := v.delayedRemovals ++ [(whenKey, fr)] }, false)
    else
      .ok (v, true)

/-- One step of `_executeFrameRequestersRemovals`: splice the requester
out of its list when found (`indexOf >= 0`), else log `console.warn`
(the returned flag counts as one warning). -/
def applyRemoval (v : ViewState) (entry : String × FR) :
    Except JsError (ViewState × Bool) :=
  match v.frameRequesters.lookup entry.1 with
  | none => .error (.error "TypeError: cannot read indexOf of undefined")
  | some frs =>
    if entry.2 ∈ frs then
      .ok ({ v with frameRequesters := assocSet v.frameRequesters entry.1 (frs.erase entry.2) },
           false)
    else
      .ok (v, true)

/-- `View._executeFrameRequestersRemovals()`: drain the pending-removal
queue, then clear it.  Returns the number of `console.warn` logs. -/
def executeFrameRequestersRemovals (v : ViewState) :
    Except JsError (ViewState × Nat) := do
  let res ← v.delayedRemovals.foldlM
    (fun (acc : ViewState × Nat) entry => do
      let (v1, warned) ← applyRemoval acc.1 entry
      pure (v1, acc.2 + (if warned then 1 else 0)))
    (v, 0)
  pure ({ res.1 with delayedRemovals := [] }, res.2)

/-- Observable effects of one `execFrameRequesters` pass: the requesters
invoked in order, `console.error` logs from `removeFrameRequester`
calls made by the callbacks, and `console.warn` logs from the draining of
the removal queue. -/
structure ExecTrace where
  invoked : List Nat
  errorsLogged : Nat
  warnsLogged : Nat
deriving DecidableEq, Repr

/-- Invoke one requester: the modelled callback body (self-removal or
nothing).  Returns whether the callback's `removeFrameRequester` call
logged `console.error`. -/
def invokeFR (v : ViewState) (whenKey : String) (fr : FR) :
    Except JsError (ViewState × Bool) :=
  if fr.removesSelf then removeFrameRequesterV v whenKey fr else .ok (v, false)

/-- The `for (const frameRequester of this._frameRequesters[when])` loop.
The modelled callbacks never mutate the live list (removal is deferred),
so iterating the snapshot taken at loop entry coincides with the JS
live-array iteration. -/
def runFRList (whenKey : String) : List FR → ViewState → ExecTrace →
    Except JsError (ViewState × ExecTrace)
  | [], v, t => .ok (v, t)
  | fr :: rest, v, t => do
    let (v1, errLogged) ← invokeFR v whenKey fr
    runFRList whenKey rest v1
      { t with
          invoked := t.invoked ++ [fr.frid]
          errorsLogged := t.errorsLogged + (if errLogged then 1 else 0) }

/-- `View.execFrameRequesters(when, dt, updateLoopRestarted, ...)`: return
early when no list is registered at the attach point; drain the pending
removals when the queue is non-empty; then invoke each requester of the
(possibly just-pruned) list. -/
def execFrameRequestersV (v : ViewState) (whenKey : String) :
    Except JsError (ViewState × ExecTrace) :=
  match v.frameRequesters.lookup whenKey with
  | none => .ok (v, { invoked := [], errorsLogged := 0, warnsLogged := 0 })
  | some _ => do
    let (v1, warns) ←
      if v.delayedRemovals.length > 0 then executeFrameRequestersRemovals v
      else pure (v, 0)
    match v1.frameRequesters.lookup whenKey with
    | none => .error (.error "model artifact: requester list vanished")
    | some frs1 =>
        runFRList whenKey frs1 v1 { invoked := [], errorsLogged := 0, warnsLogged := warns }

/-- `View.removeAllFrameRequesters()`: queue a removal for every
registered requester of every attach point, then drain the queue.
Returns the `console.error` and `console.warn` counts. -/
def removeAllFrameRequestersV (v : ViewState) :
    Except JsError (ViewState × Nat × Nat) := do
  let res ← v.frameRequesters.foldlM
    (fun (acc : ViewState × Nat) kv =>
      kv.2.foldlM
        (fun (acc2 : ViewState × Nat) fr => do
          let (v1, errLogged) ← removeFrameRequesterV acc2.1 kv.1 fr
          pure (v1, acc2.2 + (if errLogged then 1 else 0)))
        acc)
    (v, 0)
  let (v2, warns) ← executeFrameRequestersRemovals res.1
  pure (v2, res.2, warns)

/-! ## `dispose` -/

/-- Observable effects of one `dispose` call. -/
structure DisposeTrace where
  warned : Bool
  removedLayerIds : List String
  disposedEvent : Bool
deriving DecidableEq, Repr

/-- The `for (const layer of layers) this.removeLayer(layer.id, clearCache)`
loops of `dispose`, by id snapshot. -/
def removeLayersByIds (g : GlobalState) (vi : Nat) (ids : List String) :
    Except JsError GlobalState :=
  ids.foldlM
    (fun gacc lid => do
      let r ← removeLayerG gacc vi lid
      pure r.1)
    g

/-- The id snapshot `this.getLayers(filter)` taken by `dispose` between
its removal phases (`[]` at an absent index, which `dispose` never
produces). -/
def snapshotIds (g : GlobalState) (i : Nat) (p : Layer → Bool) : List String :=
  match g.views[i]? with
  | none => []
  | some v => (getLayers v p).map (·.id)

/-- `View.dispose(clearCache)` for the view with id `vid`.
`viewers.indexOf(this)` is the registry lookup; a view no longer in the
registry logs `'View already disposed'` and returns.  The resize
listener, `controls.dispose`, the scene-graph cleanup traversal and
`removeAllEvents` act on external collaborators or unmodelled listener
state; the `disposed` event dispatch is recorded in the trace. -/
def disposeG (g : GlobalState) (vid : Nat) :
    Except JsError (GlobalState × DisposeTrace) :=
  match g.views.findIdx? (fun v => v.vid == vid) with
  | none => .ok (g, { warned := true, removedLayerIds := [], disposedEvent := false })
  | some i => do
    let g1 ←
      match g.views[i]? with
      | none => .error (.error "model artifact: registry index out of range")
      | some v => do
          let r ← removeAllFrameRequestersV v
          pure { g with views := g.views.set i r.1 }
    let ids1 := snapshotIds g1 i (fun l => !l.isTiledGeometryLayer && !l.isAtmosphere)
    let g2 ← removeLayersByIds g1 i ids1
    let ids2 := snapshotIds g2 i (fun l => l.isAtmosphere)
    let g3 ← removeLayersByIds g2 i ids2
    let ids3 := snapshotIds g3 i (fun l => l.isTiledGeometryLayer)
    let g4 ← removeLayersByIds g3 i ids3
    let g5 : GlobalState := { g4 with views := g4.views.eraseIdx i }
    pure (g5,
      { warned := false, removedLayerIds := ids1 ++ ids2 ++ ids3, disposedEvent := true })

/-! ## Spec-side predicates for the verified properties -/

/-- Every layer a view holds: roots with their attached layers, in
`getLayers` order. -/
def allLayersOf (roots : List RootLayer) : List Layer :=
  (roots.map (fun r => r.layer :: r.attachedLayers)).flatten

/-- The ids of every layer a view holds. -/
def allIdsOf (roots : List RootLayer) : List String :=
  (allLayersOf roots).map (·.id)

/-- The view's color layers in `getLayers` order (the list walked both by
the sequence assignment of `addLayer` and the renumbering of
`removeLayer`). -/
def colorsOfRoots (roots : List RootLayer) : List Layer :=
  (roots.map (RootLayer.entriesFiltered (fun l => l.isColorLayer))).flatten

/-- The ids of the layers attached under the root layer with the given id
(`[]` when that id does not belong to a root layer). -/
def attachedIdsUnderRoots (roots : List RootLayer) (lid : String) : List String :=
  match roots.find? (fun r => r.layer.id == lid) with
  | some r => r.attachedLayers.map (·.id)
  | none => []

/-- The attached-layer subtree of the layer with id `lid` in view `v`,
as ids. -/
def attachedIdsUnder (v : ViewState) (lid : String) : List String :=
  attachedIdsUnderRoots v.layers lid

/-- Contiguity of the color-layer compositing order (§4.4: `removeLayer`
"renumbers any ordering-sensitive sibling sequence ... to stay
contiguous"): the sequences of the view's color layers are exactly
`0, …, n-1` in some order (`some` because an unassigned JS sequence is
`undefined`). -/
def colorSequencesContiguous (v : ViewState) : Prop :=
  ((getLayers v (fun l => l.isColorLayer)).map (·.sequence)).Perm
    ((List.range (getLayers v (fun l => l.isColorLayer)).length).map some)

instance (v : ViewState) : Decidable (colorSequencesContiguous v) := by
  unfold colorSequencesContiguous
  exact List.decidablePerm _ _

/-! ## Sample states for concrete evaluations -/

/-- A freshly constructed view's resize-related state, 800×600 viewport,
main loop paused. -/
def sampleRState : RState :=
  { domClientWidth := 800
    domClientHeight := 600
    fullSizeDepthBufferLen := 4 * 800 * 600
    depthBufferNeedsUpdate := false
    engineWidth := 800
    engineHeight := 600
    cameraWidth := 800
    cameraHeight := 600
    xrIsPresenting := false
    changeSources := []
    mlScheduled := false
    mlNeedsRedraw := false
    framesRequested := 0 }

/-- A plain layer value with the given id, source uid and CRS; the other
fields are the defaults of a freshly constructed ordinary layer. -/
def mkLayer (lid : String) (uid : Nat) (c : Option String) : Layer :=
  { isLayer := true
    id := lid
    sourceUid := uid
    sourceCrs := c
    sourceExtent := none
    crs := c
    extent := none
    tileMatrixSets := none
    isGeometryLayer := false
    isLabelLayer := false
    isColorLayer := false
    isTiledGeometryLayer := false
    isAtmosphere := false
    hasUpdate := true
    hasPreUpdate := true
    sequence := none }

/-- A tiled geometry (terrain) layer. -/
def tilesLayerA : Layer :=
  { mkLayer "tilesA" 1 (some "EPSG:4978") with
      isGeometryLayer := true, isTiledGeometryLayer := true }

/-- An imagery layer attached to `tilesLayerA`, sharing source uid 7 and
CRS `EPSG:4326` with `orthoB` of the second view. -/
def orthoA : Layer :=
  { mkLayer "ortho" 7 (some "EPSG:4326") with
      isColorLayer := true, sequence := some 0, hasUpdate := false, hasPreUpdate := false }

def tilesLayerB : Layer :=
  { mkLayer "tilesB" 2 (some "EPSG:4978") with
      isGeometryLayer := true, isTiledGeometryLayer := true }

def orthoB : Layer :=
  { mkLayer "orthoB" 7 (some "EPSG:4326") with
      isColorLayer := true, sequence := some 0, hasUpdate := false, hasPreUpdate := false }

def viewA : ViewState :=
  { vid := 0
    referenceCrs := "EPSG:4978"
    layers := [{ layer := tilesLayerA, attachedLayers := [orthoA] }]
    frameRequesters := []
    delayedRemovals := [] }

def viewB : ViewState :=
  { vid := 1
    referenceCrs := "EPSG:4978"
    layers := [{ layer := tilesLayerB, attachedLayers := [orthoB] }]
    frameRequesters := []
    delayedRemovals := [] }

/-- Two active views whose color layers share one source and CRS. -/
def sampleG : GlobalState := { views := [viewA, viewB] }

/-- A view with two tiled roots, each carrying one attached color layer;
the two color sequences are `0` and `1`. -/
def viewC : ViewState :=
  { vid := 2
    referenceCrs := "EPSG:4978"
    layers :=
      [{ layer := { mkLayer "terrain1" 11 (some "EPSG:4978") with
                      isGeometryLayer := true, isTiledGeometryLayer := true }
         attachedLayers := [{ mkLayer "color1" 21 (some "EPSG:4326") with
                                isColorLayer := true, sequence := some 0 }] },
       { layer := { mkLayer "terrain2" 12 (some "EPSG:4978") with
                      isGeometryLayer := true, isTiledGeometryLayer := true }
         attachedLayers := [{ mkLayer "color2" 22 (some "EPSG:4326") with
                                isColorLayer := true, sequence := some 1 }] }]
    frameRequesters := []
    delayedRemovals := [] }

def sampleGC : GlobalState := { views := [viewC] }

/-- A view with two requesters at `before_layer_update`: requester 1
unregisters itself during its invocation, requester 2 does nothing. -/
def frView : ViewState :=
  { vid := 5
    referenceCrs := "EPSG:4978"
    layers := []
    frameRequesters := [("before_layer_update", [{ frid := 1, removesSelf := true },
                                                 { frid := 2, removesSelf := false }])]
    delayedRemovals := [] }

/-! # Theorems -/

/-! ## C10 — coordinate conversion round trip -/

/-- C10: for every view whose camera width and height are positive,
`viewToNormalizedCoords` followed by `normalizedToViewCoords` returns the
original view coordinate exactly, under exact rational arithmetic. -/
theorem viewCoords_roundtrip (width height : ℚ) (p : Vec2)
    (hw : 0 < width) (hh : 0 < height) :
    normalizedToViewCoords width height (viewToNormalizedCoords width height p) = p := by
  have hw' : width ≠ 0 := ne_of_gt hw
  have hh' : height ≠ 0 := ne_of_gt hh
  cases p with
  | mk x y =>
    unfold normalizedToViewCoords viewToNormalizedCoords
    simp only [Vec2.mk.injEq]
    constructor
    · field_simp
      ring
    · field_simp
      ring

/-- Concrete round trip through the coordinate conversions at an 800×600
camera. -/
theorem viewCoords_roundtrip_witness :
    (0 : ℚ) < 800 ∧ (0 : ℚ) < 600 ∧
      normalizedToViewCoords 800 600 (viewToNormalizedCoords 800 600 ⟨123, 45⟩) = ⟨123, 45⟩ :=
  ⟨by norm_num, by norm_num,
    viewCoords_roundtrip 800 600 ⟨123, 45⟩ (by norm_num) (by norm_num)⟩

/-! ## C7 — picking signals absence of a hit by `undefined` -/

/-- C7: `getPickingPositionFromDepth` signals absence of a surface hit by
returning `undefined` rather than throwing: it returns `undefined`
whenever the unprojected world position's distance from the origin
exceeds the sanity bound `10000000` (equivalently, its squared length
exceeds `10000000 ^ 2`), and also when the view has no tile layer or the
tile layer has no root nodes. -/
theorem picking_no_hit_returns_undefined (hasTileLayer : Bool) (nodes : List Bool) (t : Vec3)
    (h : (hasTileLayer = false ∨ nodes.length = 0 ∨ level0NodesHeadTruthy nodes = false)
          ∨ t.lengthSq > 10000000 ^ 2) :
    getPickingPositionFromDepth hasTileLayer nodes t = none := by
  unfold getPickingPositionFromDepth
  rcases h with (h | h | h) | h
  · simp [h]
  · simp [h]
  · simp [h]
  · by_cases hg : (!hasTileLayer || nodes.length == 0 || !(level0NodesHeadTruthy nodes)) = true
    · simp [hg]
    · simp [hg, h]

/-- Concrete absent-hit evaluations: no tile layer at all, and an
unprojected position beyond the sanity bound. -/
theorem picking_no_hit_returns_undefined_witness :
    getPickingPositionFromDepth false [] ⟨0, 0, 0⟩ = none ∧
      getPickingPositionFromDepth true [true] ⟨20000000, 0, 0⟩ = none :=
  ⟨picking_no_hit_returns_undefined false [] ⟨0, 0, 0⟩ (Or.inl (Or.inl rfl)),
    picking_no_hit_returns_undefined true [true] ⟨20000000, 0, 0⟩
      (Or.inr (by norm_num [Vec3.lengthSq]))⟩

/-! ## C8 — negative resize is a logged no-op -/

/-- C8: calling `resize` with a negative width or a negative height logs a
warning and is a no-op: the state (full-size depth buffer, camera and
engine dimensions, change sources, main-loop scheduling) is unchanged and
no `notifyChange` is issued. -/
theorem resize_negative_noop (s : RState) (w h : Option Int)
    (hneg : ((w.elim false (· < 0)) || (h.elim false (· < 0))) = true) :
    View.resize s w h = (s, { notifyChangeCalls := 0, warned := true }) := by
  unfold View.resize
  simp [hneg]

/-- Concrete negative resize: `resize(-5, 600)` on a fresh 800×600 view
leaves the state intact, warns, and issues no `notifyChange`. -/
theorem resize_negative_noop_witness :
    View.resize sampleRState (some (-5)) (some 600)
      = (sampleRState, { notifyChangeCalls := 0, warned := true }) :=
  resize_negative_noop sampleRState (some (-5)) (some 600) (by decide)

/-! ## C6 — resize idempotence -/

/-- C6 counterexample: the claim says a second `resize` with the same
dimensions as the immediately preceding call produces no additional
`notifyChange` call; but `resize` calls `notifyChange(this.camera3D)`
unconditionally whenever both dimensions are non-zero, so the second
call's trace records one more `notifyChange` call (not zero). -/
theorem resize_second_call_notifies :
    (View.resize (View.resize sampleRState (some 800) (some 600)).1
        (some 800) (some 600)).2.notifyChangeCalls = 1 := by
  decide

/-- `setAdd` is idempotent in its element. -/
theorem setAdd_setAdd (l : List ChangeSource) (cs : ChangeSource) :
    setAdd (setAdd l cs) cs = setAdd l cs := by
  unfold setAdd
  by_cases h : cs ∈ l
  · simp [h]
  · simp [h]

/-- C6 (amended): a second `resize` with the same positive dimensions as
the immediately preceding call does issue another `notifyChange` call,
but it is state-idempotent: the pending change-source set, the stale-depth
flag, every dimension field, and the main loop's scheduling state
(including the number of animation frames requested — hence no additional
redraw request) are exactly those left by the first call. -/
theorem resize_idempotent_state (s : RState) (w h : Int) (hw : 0 < w) (hh : 0 < h) :
    (View.resize (View.resize s (some w) (some h)).1 (some w) (some h)).1
      = (View.resize s (some w) (some h)).1 := by
  have hwneg : ¬(w < 0) := by omega
  have hhneg : ¬(h < 0) := by omega
  have hw0 : (w != 0) = true := by simpa using by omega
  have hh0 : (h != 0) = true := by simpa using by omega
  by_cases hxr : s.xrIsPresenting <;>
    by_cases hsch : s.mlScheduled <;>
      simp [View.resize, notifyChange, scheduleViewUpdate, camera3DSource,
        hwneg, hhneg, hw0, hh0, setAdd_setAdd, hxr, hsch]

/-- Concrete instantiation of the amended idempotence at 800×600 starting
from a fresh view. -/
theorem resize_idempotent_state_witness :
    (0 : Int) < 800 ∧
      (View.resize (View.resize sampleRState (some 800) (some 600)).1
          (some 800) (some 600)).1
        = (View.resize sampleRState (some 800) (some 600)).1 :=
  ⟨by norm_num, resize_idempotent_state sampleRState 800 600 (by norm_num) (by norm_num)⟩

/-! ## C2 — duplicate layer id rejects and leaves the view unchanged -/

/-- C2: adding a second layer whose id is already used returns a rejected
promise without throwing past the `addLayer` boundary (the call yields an
ordinary `.ok` value carrying `AddResult.rejected`), and leaves the view
unchanged: the layer list is not modified and `getLayerById` still
returns the first layer. -/
theorem addLayer_duplicate_id_rejects (v : ViewState) (l1 l2 : Layer) (x : String)
    (parent : Option String)
    (h1 : getLayerById v x = some l1) (hid : l2.id = x) (hl : l2.isLayer = true) :
    addLayer v l2 parent
        = .ok (.rejected ("Invalid id " ++ x ++ ": id already used"), v)
      ∧ getLayerById v x = some l1 := by
  refine ⟨?_, h1⟩
  unfold addLayer
  rw [hl, hid, h1]
  rfl

/-- Concrete duplicate add: a second layer with id `"ortho"` is rejected
and `viewA` still resolves `"ortho"` to the original imagery layer. -/
theorem addLayer_duplicate_id_rejects_witness :
    addLayer viewA (mkLayer "ortho" 9 (some "EPSG:3857")) none
        = .ok (.rejected ("Invalid id " ++ "ortho" ++ ": id already used"), viewA)
      ∧ getLayerById viewA "ortho" = some orthoA :=
  addLayer_duplicate_id_rejects viewA orthoA (mkLayer "ortho" 9 (some "EPSG:3857")) "ortho"
    none (by decide) (by decide) (by decide)

/-! ## Structure of `getLayers` and the layer lookup -/

/-- `find?` is the head of the filtered list. -/
theorem find?_eq_head?_filter {α : Type} (p : α → Bool) (l : List α) :
    l.find? p = (l.filter p).head? := by
  induction l with
  | nil => rfl
  | cons a l ih =>
    cases h : p a with
    | true =>
        rw [List.find?_cons_of_pos _ h, List.filter_cons_of_pos h]
        rfl
    | false =>
        rw [List.find?_cons_of_neg _ (by simp [h]), List.filter_cons_of_neg (by simp [h]), ih]

/-- Filtering `getLayers` output commutes with filtering inside. -/
theorem entriesFiltered_eq_filter (p : Layer → Bool) (r : RootLayer) :
    r.entriesFiltered p = (r.entriesFiltered (fun _ => true)).filter p := by
  unfold RootLayer.entriesFiltered
  cases h : p r.layer with
  | true => simp [h, List.filter_cons]
  | false => simp [h, List.filter_cons]

/-- `getLayers v p` is the filtered unfiltered walk. -/
theorem getLayers_eq_filter (v : ViewState) (p : Layer → Bool) :
    getLayers v p = (getLayers v (fun _ => true)).filter p := by
  unfold getLayers
  induction v.layers with
  | nil => rfl
  | cons r rs ih =>
    simp only [List.map_cons, List.flatten_cons, List.filter_append, ih,
      entriesFiltered_eq_filter p r]

/-- `findLayerEntry` finds exactly the layer `getLayerById` returns. -/
theorem findLayerEntry_fst (roots : List RootLayer) (lid : String) :
    (findLayerEntry roots lid).map (·.1)
      = ((roots.map (RootLayer.entriesFiltered (fun l => l.id == lid))).flatten).head? := by
  induction roots with
  | nil => rfl
  | cons r rs ih =>
    unfold findLayerEntry
    by_cases h : r.layer.id == lid
    · simp [RootLayer.entriesFiltered, h]
    · simp only [Bool.not_eq_true] at h
      rw [if_neg (by simp [h])]
      cases hf : r.attachedLayers.find? (fun l => l.id == lid) with
      | some l =>
          have : (r.attachedLayers.filter (fun l => l.id == lid)).head? = some l := by
            rw [← find?_eq_head?_filter]; exact hf
          simp [RootLayer.entriesFiltered, h, this]
      | none =>
          have hnil : r.attachedLayers.filter (fun l => l.id == lid) = [] := by
            rw [List.filter_eq_nil_iff]
            intro a ha
            have := List.find?_eq_none.mp hf a ha
            simpa using this
          simp only [List.map_cons, List.flatten_cons, RootLayer.entriesFiltered, h,
            if_neg (by simp [h] : ¬(r.layer.id == lid) = true), hnil, List.nil_append,
            List.head?_append]
          rw [← ih]
          cases findLayerEntry rs lid <;> simp

/-- `getLayerById v lid = some L` yields the `findLayerEntry` form used by
`removeLayer`. -/
theorem findLayerEntry_of_getLayerById (v : ViewState) (lid : String) (L : Layer)
    (h : getLayerById v lid = some L) :
    ∃ pidx, findLayerEntry v.layers lid = some (L, pidx) := by
  have h2 : (findLayerEntry v.layers lid).map (·.1) = some L := by
    rw [findLayerEntry_fst]
    exact h
  cases hf : findLayerEntry v.layers lid with
  | none => rw [hf] at h2; simp at h2
  | some e =>
      rw [hf] at h2
      simp at h2
      exact ⟨e.2, by rw [← h2]⟩

/-! ## C1 — cross-view source-cache release -/

/-- The counted shared-source sum vanishes exactly when no layer of any
active view uses the removed layer's source uid together with its CRS. -/
theorem sharedSourceCount_eq_zero_iff (g : GlobalState) (L : Layer) :
    sharedSourceCount g L = 0 ↔ noViewUsesSourceCrs g L := by
  unfold sharedSourceCount noViewUsesSourceCrs
  rw [List.sum_eq_zero_iff]
  constructor
  · intro hz w hw l hl hconj
    have hlen : (getLayers w (fun l => l.sourceUid == L.sourceUid && l.crs == L.crs)).length = 0 :=
      hz _ (List.mem_map_of_mem _ hw)
    rw [List.length_eq_zero, getLayers_eq_filter, List.filter_eq_nil_iff] at hlen
    exact hlen l hl (by simp [hconj.1, hconj.2])
  · intro hall n hn
    rcases List.mem_map.mp hn with ⟨w, hw, rfl⟩
    rw [List.length_eq_zero, getLayers_eq_filter, List.filter_eq_nil_iff]
    intro l hl hpred
    simp only [Bool.and_eq_true, beq_iff_eq] at hpred
    exact hall w hw l hl hpred

/-- The `unusedCrs` argument equals the removed layer's defined `crs`
exactly when the shared-source predicate holds. -/
theorem unusedCrs_iff_aux (g' : GlobalState) (L : Layer) (hcrs : L.crs ≠ none) :
    (some (if sharedSourceCount g' L = 0 then L.crs else none) = some L.crs)
      ↔ noViewUsesSourceCrs g' L := by
  rw [← sharedSourceCount_eq_zero_iff g' L]
  by_cases hz : sharedSourceCount g' L = 0
  · simp [hz]
  · simp only [hz, if_false, iff_false]
    intro heq
    simp only [Option.some.injEq] at heq
    exact hcrs heq.symm

/-- C1: `removeLayer` invokes `source.onLayerRemoved` with `unusedCrs`
equal to the removed layer's `crs` exactly when, after the layer has been
deleted and detached, no layer of any active view has a source with the
same `uid` and the same `crs`; otherwise it is invoked with
`unusedCrs: undefined` (`none`).  The first conjunct characterises the
argument unconditionally; the equivalence with the layer's own `crs`
value is stated for a defined `crs` (for an `undefined` one both branches
pass the same `undefined` argument). -/
theorem removeLayer_onLayerRemoved_unusedCrs (g : GlobalState) (vi : Nat) (v : ViewState)
    (lid : String) (L : Layer)
    (hv : g.views[vi]? = some v)
    (hL : getLayerById v lid = some L) :
    ∃ g' tr, removeLayerG g vi lid = .ok (g', true, tr) ∧
      tr.onLayerRemovedUnusedCrs
          = some (if sharedSourceCount g' L = 0 then L.crs else none) ∧
      (sharedSourceCount g' L = 0 ↔ noViewUsesSourceCrs g' L) ∧
      (L.crs ≠ none →
        ((tr.onLayerRemovedUnusedCrs = some L.crs) ↔ noViewUsesSourceCrs g' L)) := by
  obtain ⟨pidx, hfind⟩ := findLayerEntry_of_getLayerById v lid L hL
  unfold removeLayerG
  simp only [hv]
  rw [hfind]
  exact ⟨_, _, rfl, rfl, sharedSourceCount_eq_zero_iff _ L,
    fun hcrs => unusedCrs_iff_aux _ L hcrs⟩

/-- Concrete cross-view removal: dropping `"ortho"` from the first of two
views that share source uid 7 with CRS `EPSG:4326`; the theorem's
characterisation applies (and since `viewB` still holds `orthoB`, the
recorded call passes `unusedCrs: undefined`). -/
theorem removeLayer_onLayerRemoved_unusedCrs_witness :
    sampleG.views[0]? = some viewA ∧ getLayerById viewA "ortho" = some orthoA ∧
      (∃ g' tr, removeLayerG sampleG 0 "ortho" = .ok (g', true, tr) ∧
        tr.onLayerRemovedUnusedCrs
            = some (if sharedSourceCount g' orthoA = 0 then orthoA.crs else none) ∧
        (sharedSourceCount g' orthoA = 0 ↔ noViewUsesSourceCrs g' orthoA) ∧
        (orthoA.crs ≠ none →
          ((tr.onLayerRemovedUnusedCrs = some orthoA.crs) ↔ noViewUsesSourceCrs g' orthoA))) :=
  ⟨by decide, by decide,
    removeLayer_onLayerRemoved_unusedCrs sampleG 0 viewA "ortho" orthoA
      (by decide) (by decide)⟩

/-! ## C3 — removing a layer removes its attached subtree -/

theorem entriesFiltered_true (r : RootLayer) :
    r.entriesFiltered (fun _ => true) = r.layer :: r.attachedLayers := by
  simp [RootLayer.entriesFiltered]

theorem getLayers_true_eq (v : ViewState) :
    getLayers v (fun _ => true) = allLayersOf v.layers := by
  unfold getLayers allLayersOf
  congr 1
  exact List.map_congr_left (fun r _ => entriesFiltered_true r)

theorem allLayersOf_cons (r : RootLayer) (rs : List RootLayer) :
    allLayersOf (r :: rs) = (r.layer :: r.attachedLayers) ++ allLayersOf rs := by
  simp [allLayersOf]

theorem allIdsOf_cons (r : RootLayer) (rs : List RootLayer) :
    allIdsOf (r :: rs)
      = (r.layer.id :: r.attachedLayers.map (·.id)) ++ allIdsOf rs := by
  simp [allIdsOf, allLayersOf_cons]

theorem mem_allIdsOf_of_root (roots : List RootLayer) (r : RootLayer) (h : r ∈ roots) :
    r.layer.id ∈ allIdsOf roots := by
  induction roots with
  | nil => cases h
  | cons a rs ih =>
    rw [allIdsOf_cons]
    rcases List.mem_cons.mp h with rfl | h2
    · simp
    · exact List.mem_append_right _ (ih h2)

theorem mem_allIdsOf_of_attached (roots : List RootLayer) (r : RootLayer) (a : Layer)
    (h : r ∈ roots) (ha : a ∈ r.attachedLayers) :
    a.id ∈ allIdsOf roots := by
  induction roots with
  | nil => cases h
  | cons b rs ih =>
    rw [allIdsOf_cons]
    rcases List.mem_cons.mp h with rfl | h2
    · exact List.mem_append_left _ (List.mem_cons_of_mem _ (List.mem_map_of_mem _ ha))
    · exact List.mem_append_right _ (ih h2)

theorem attachedIdsUnderRoots_subset (roots : List RootLayer) (lid : String) :
    ∀ x ∈ attachedIdsUnderRoots roots lid, x ∈ allIdsOf roots := by
  intro x hx
  unfold attachedIdsUnderRoots at hx
  cases hf : roots.find? (fun r => r.layer.id == lid) with
  | none => rw [hf] at hx; cases hx
  | some r =>
    rw [hf] at hx
    rcases List.mem_map.mp hx with ⟨a, ha, rfl⟩
    exact mem_allIdsOf_of_attached roots r a (List.mem_of_find?_eq_some hf) ha

/-- No layer surviving `eraseP` on the attached list still carries the
removed id (per-list id uniqueness). -/
theorem eraseP_ids_no_match (attached : List Layer) (lid : String)
    (hnd : (attached.map (·.id)).Nodup)
    (l0 : Layer) (hfa : attached.find? (fun l => l.id == lid) = some l0) :
    ∀ a ∈ attached.eraseP (fun l => l.id == lid), a.id ≠ lid := by
  have hl0mem : l0 ∈ attached := List.mem_of_find?_eq_some hfa
  have hl0p := List.find?_some hfa
  obtain ⟨a', l₁, l₂, hl₁, hpa', hsplit, herase⟩ :=
    List.exists_of_eraseP (p := fun l => l.id == lid) hl0mem hl0p
  rw [herase]
  have ha'id : a'.id = lid := by simpa using hpa'
  intro a ha hal
  rcases List.mem_append.mp ha with h1 | h2
  · exact hl₁ a h1 (by simpa using hal)
  · have hids := hnd
    rw [hsplit] at hids
    simp only [List.map_append, List.map_cons] at hids
    have hnotin : a'.id ∉ l₂.map (·.id) :=
      (List.nodup_cons.mp (List.nodup_append.mp hids).2.1).1
    exact hnotin (by rw [ha'id, ← hal]; exact List.mem_map_of_mem _ h2)

/-- After the detach/splice step of `removeLayer`, neither the removed
layer's id nor any id attached under it remains among the view's layer
ids (given per-view id uniqueness). -/
theorem removed_ids_absent (lid : String) (roots : List RootLayer) :
    ∀ (L : Layer) (pidx : Option Nat),
      findLayerEntry roots lid = some (L, pidx) →
      (allIdsOf roots).Nodup →
      ∀ x ∈ allIdsOf
          (match pidx with
           | some pi => detachAt roots pi lid
           | none => roots.eraseP (fun r => r.layer.id == lid)),
        x ≠ lid ∧ x ∉ attachedIdsUnderRoots roots lid := by
  induction roots with
  | nil => intro L pidx hfind; simp [findLayerEntry] at hfind
  | cons r rs ih =>
    intro L pidx hfind hnodup x hx
    rw [allIdsOf_cons] at hnodup
    obtain ⟨hn1, hn2, hdisj⟩ := List.nodup_append.mp hnodup
    by_cases hr : (r.layer.id == lid) = true
    · -- the removed layer is the root `r`
      rw [findLayerEntry, if_pos hr] at hfind
      simp only [Option.some.injEq, Prod.mk.injEq] at hfind
      obtain ⟨hL, hp⟩ := hfind
      subst hp
      have hid : r.layer.id = lid := by simpa using hr
      have hx' : x ∈ allIdsOf (List.eraseP (fun r => r.layer.id == lid) (r :: rs)) := hx
      rw [List.eraseP_cons_of_pos (p := fun rt : RootLayer => rt.layer.id == lid) hr] at hx'
      have hfr : (r :: rs).find? (fun r => r.layer.id == lid) = some r :=
        List.find?_cons_of_pos _ hr
      constructor
      · intro hxl
        exact hdisj (by rw [hxl, ← hid]; exact List.mem_cons_self _ _) hx'
      · intro hxatt
        unfold attachedIdsUnderRoots at hxatt
        rw [hfr] at hxatt
        exact hdisj (List.mem_cons_of_mem _ hxatt) hx'
    · rw [findLayerEntry, if_neg hr] at hfind
      have hrne : ¬ r.layer.id = lid := by simpa using hr
      have hfr : (r :: rs).find? (fun r => r.layer.id == lid)
          = rs.find? (fun r => r.layer.id == lid) :=
        List.find?_cons_of_neg _ hr
      cases hfa : r.attachedLayers.find? (fun l => l.id == lid) with
      | some l0 =>
        rw [hfa] at hfind
        simp only [Option.some.injEq, Prod.mk.injEq] at hfind
        obtain ⟨hL, hp⟩ := hfind
        subst hp
        have hl0 : l0.id = lid := by
          have h := List.find?_some hfa
          simpa using h
        have hlidmem : lid ∈ r.attachedLayers.map (·.id) := by
          rw [← hl0]; exact List.mem_map_of_mem _ (List.mem_of_find?_eq_some hfa)
        have hfnone : rs.find? (fun r => r.layer.id == lid) = none := by
          rw [List.find?_eq_none]
          intro r' hr' hbeq
          have hmem : lid ∈ allIdsOf rs := by
            have := mem_allIdsOf_of_root rs r' hr'
            rwa [show r'.layer.id = lid by simpa using hbeq] at this
          exact hdisj (List.mem_cons_of_mem _ hlidmem) hmem
        have hatt : attachedIdsUnderRoots (r :: rs) lid = [] := by
          unfold attachedIdsUnderRoots
          rw [hfr, hfnone]
        rw [hatt]
        refine ⟨?_, by simp⟩
        have hx' : x ∈ allIdsOf
            ({ r with attachedLayers :=
                r.attachedLayers.eraseP (fun l => l.id == lid) } :: rs) := hx
        rw [allIdsOf_cons] at hx'
        intro hxl
        rcases List.mem_append.mp hx' with hx1 | hx2
        · rcases List.mem_cons.mp hx1 with hx1 | hx1
          · exact hrne (hx1 ▸ hxl)
          · rcases List.mem_map.mp hx1 with ⟨a, ha, haid⟩
            exact eraseP_ids_no_match r.attachedLayers lid
              (List.nodup_cons.mp hn1).2 l0 hfa a ha (haid.trans hxl)
        · exact hdisj (List.mem_cons_of_mem _ (hxl ▸ hlidmem)) hx2
      | none =>
        rw [hfa] at hfind
        cases hrec : findLayerEntry rs lid with
        | none => rw [hrec] at hfind; simp at hfind
        | some e =>
          rw [hrec] at hfind
          simp only [Option.map_some', Option.some.injEq, Prod.mk.injEq] at hfind
          obtain ⟨hL, hp⟩ := hfind
          subst hp
          have hatt : attachedIdsUnderRoots (r :: rs) lid
              = attachedIdsUnderRoots rs lid := by
            unfold attachedIdsUnderRoots
            rw [hfr]
          rw [hatt]
          have hshape : allIdsOf
              (match e.2.map (· + 1) with
               | some pi => detachAt (r :: rs) pi lid
               | none => (r :: rs).eraseP (fun r => r.layer.id == lid))
            = (r.layer.id :: r.attachedLayers.map (·.id)) ++ allIdsOf
              (match e.2 with
               | some pi => detachAt rs pi lid
               | none => rs.eraseP (fun r => r.layer.id == lid)) := by
            cases e2 : e.2 with
            | none =>
              simp only [Option.map_none']
              rw [List.eraseP_cons_of_neg (p := fun rt : RootLayer => rt.layer.id == lid) hr,
                allIdsOf_cons]
            | some pi =>
              simp only [Option.map_some']
              rw [show detachAt (r :: rs) (pi + 1) lid = r :: detachAt rs pi lid from rfl,
                allIdsOf_cons]
          rw [hshape] at hx
          rcases List.mem_append.mp hx with hx1 | hx2
          · constructor
            · intro hxl
              rcases List.mem_cons.mp hx1 with hx1 | hx1
              · exact hrne (hx1 ▸ hxl)
              · rcases List.mem_map.mp hx1 with ⟨a, ha, haid⟩
                exact List.find?_eq_none.mp hfa a ha (by simp [haid.trans hxl])
            · intro hxatt
              exact hdisj hx1 (attachedIdsUnderRoots_subset rs lid _ hxatt)
          · exact ih e.1 e.2 (by rw [hrec]) hn2 x hx2

/-- Sequence renumbering never changes a layer's id. -/
theorem decSeqAfter_id (rem l : Layer) : (decSeqAfter rem l).id = l.id := by
  unfold decSeqAfter
  split
  · cases hs : l.sequence <;> cases hrem : rem.sequence <;> simp
    split <;> rfl
  · rfl

/-- Applying an id-preserving per-layer update to every root leaves the
id walk unchanged. -/
theorem allIdsOf_mapLayers (f : Layer → Layer) (hf : ∀ l, (f l).id = l.id) :
    ∀ roots : List RootLayer,
      allIdsOf (roots.map (fun r =>
        { layer := f r.layer, attachedLayers := r.attachedLayers.map f }))
        = allIdsOf roots := by
  intro roots
  induction roots with
  | nil => rfl
  | cons r rs ih =>
    have h1 : (r.attachedLayers.map f).map (·.id) = r.attachedLayers.map (·.id) := by
      rw [List.map_map]
      exact List.map_congr_left (fun a _ => hf a)
    rw [List.map_cons, allIdsOf_cons, allIdsOf_cons, ih, h1, hf]

/-- C3: after `removeLayer(L.id)` succeeds (returning `true`), the view's
`getLayers()` contains neither a layer with the removed id nor any layer
whose id was attached under the removed layer (per-view id uniqueness
assumed, which is the documented registry invariant). -/
theorem removeLayer_removes_attached_subtree (g : GlobalState) (vi : Nat) (v : ViewState)
    (lid : String) (L : Layer)
    (hv : g.views[vi]? = some v)
    (hnodup : ((getLayers v (fun _ => true)).map (·.id)).Nodup)
    (hL : getLayerById v lid = some L) :
    ∃ g' tr v', removeLayerG g vi lid = .ok (g', true, tr) ∧
      g'.views[vi]? = some v' ∧
      ∀ l ∈ getLayers v' (fun _ => true),
        l.id ≠ lid ∧ l.id ∉ attachedIdsUnder v lid := by
  obtain ⟨pidx, hfind⟩ := findLayerEntry_of_getLayerById v lid L hL
  have hnodup' : (allIdsOf v.layers).Nodup := by
    rw [getLayers_true_eq] at hnodup
    exact hnodup
  have hlen : vi < g.views.length := by
    rcases List.getElem?_eq_some.mp hv with ⟨hl, _⟩
    exact hl
  unfold removeLayerG
  simp only [hv]
  rw [hfind]
  refine ⟨_, _, _, rfl, List.getElem?_set_eq_of_lt _ hlen, ?_⟩
  intro l hl
  rw [getLayers_true_eq] at hl
  by_cases hc : L.isColorLayer = true
  · cases pidx with
    | some pi =>
      simp only [hc, if_true, ViewState.mapLayers] at hl
      have hid : l.id ∈ allIdsOf ((detachAt v.layers pi lid).map (fun r =>
          { layer := decSeqAfter L r.layer,
            attachedLayers := r.attachedLayers.map (decSeqAfter L) })) :=
        List.mem_map_of_mem _ hl
      rw [allIdsOf_mapLayers (decSeqAfter L) (decSeqAfter_id L)] at hid
      exact removed_ids_absent lid v.layers L (some pi) hfind hnodup' l.id hid
    | none =>
      simp only [hc, if_true, ViewState.mapLayers] at hl
      have hid : l.id ∈ allIdsOf ((v.layers.eraseP (fun r => r.layer.id == lid)).map (fun r =>
          { layer := decSeqAfter L r.layer,
            attachedLayers := r.attachedLayers.map (decSeqAfter L) })) :=
        List.mem_map_of_mem _ hl
      rw [allIdsOf_mapLayers (decSeqAfter L) (decSeqAfter_id L)] at hid
      exact removed_ids_absent lid v.layers L none hfind hnodup' l.id hid
  · cases pidx with
    | some pi =>
      simp only [hc, if_false] at hl
      exact removed_ids_absent lid v.layers L (some pi) hfind hnodup' l.id
        (List.mem_map_of_mem _ hl)
    | none =>
      simp only [hc, if_false] at hl
      exact removed_ids_absent lid v.layers L none hfind hnodup' l.id
        (List.mem_map_of_mem _ hl)

/-- Concrete subtree removal: removing the tiled root `"tilesA"` of
`viewA` also removes its attached imagery layer `"ortho"` from
`getLayers()`. -/
theorem removeLayer_removes_attached_subtree_witness :
    sampleG.views[0]? = some viewA ∧
      ((getLayers viewA (fun _ => true)).map (·.id)).Nodup ∧
      getLayerById viewA "tilesA" = some tilesLayerA ∧
      (∃ g' tr v', removeLayerG sampleG 0 "tilesA" = .ok (g', true, tr) ∧
        g'.views[0]? = some v' ∧
        ∀ l ∈ getLayers v' (fun _ => true),
          l.id ≠ "tilesA" ∧ l.id ∉ attachedIdsUnder viewA "tilesA") :=
  ⟨by decide, by decide, by decide,
    removeLayer_removes_attached_subtree sampleG 0 viewA "tilesA" tilesLayerA
      (by decide) (by decide) (by decide)⟩

/-! ## C5 — contiguity of color-layer sequences -/

/-- Removing one value from a contiguous range and decrementing everything
above it yields the next contiguous range. -/
theorem range_erase_dec (s n : Nat) (hs : s < n) :
    ((List.range n).erase s).map (fun t => if s < t then t - 1 else t)
      = List.range (n - 1) := by
  obtain ⟨k, rfl⟩ : ∃ k, n = (s + 1) + k := ⟨n - (s + 1), by omega⟩
  rw [List.range_add, List.range_succ, List.append_assoc,
    List.erase_append_right _ (by simp),
    show (([s] ++ (List.range k).map (fun x => s + 1 + x)).erase s
        = (List.range k).map (fun x => s + 1 + x)) from List.erase_cons_head _ _]
  rw [List.map_append, List.map_map]
  have h1 : (List.range s).map (fun t => if s < t then t - 1 else t) = List.range s := by
    have hpt : ∀ t ∈ List.range s, (if s < t then t - 1 else t) = t := by
      intro t ht
      have htl := List.mem_range.mp ht
      rw [if_neg (by omega)]
    simp [List.map_congr_left hpt]
  have h2 : (List.range k).map ((fun t => if s < t then t - 1 else t) ∘ fun x => s + 1 + x)
      = (List.range k).map (fun x => s + x) := by
    refine List.map_congr_left (fun i _ => ?_)
    simp only [Function.comp_apply]
    rw [if_pos (by omega)]
    omega
  rw [h1, h2, ← List.range_add]
  congr 1
  omega

/-- Removing one occurrence of `some s` from a list that is a permutation
of the contiguous `some`-range and decrementing every remaining sequence
above `s` yields a permutation of the next contiguous range. -/
theorem seqs_remove_renumber_perm (s n : Nat) (ys zs : List (Option Nat))
    (hperm : (ys ++ some s :: zs).Perm ((List.range n).map some)) :
    ((ys ++ zs).map (fun x => match x with
        | some t => some (if s < t then t - 1 else t)
        | none => none)).Perm ((List.range (n - 1)).map some) := by
  have hs : s < n := by
    have hmem : some s ∈ (List.range n).map some :=
      hperm.mem_iff.mp (by simp)
    simpa using hmem
  have h2 : (some s :: (ys ++ zs)).Perm ((List.range n).map some) :=
    (List.perm_middle.symm).trans hperm
  have h1 := (List.cons_perm_iff_perm_erase.mp h2).2
  have h3 := h1.map (fun x : Option Nat => match x with
    | some t => some (if s < t then t - 1 else t)
    | none => none)
  refine h3.trans ?_
  rw [← List.map_erase (Option.some_injective Nat), List.map_map]
  rw [show ((fun x : Option Nat => match x with
        | some t => some (if s < t then t - 1 else t)
        | none => none) ∘ some) = (fun t => some (if s < t then t - 1 else t)) from rfl]
  rw [show (fun t : Nat => some (if s < t then t - 1 else t))
        = (some ∘ fun t : Nat => if s < t then t - 1 else t) from rfl]
  rw [← List.map_map, range_erase_dec s n hs]

/-- Inserting the next sequence value anywhere in a contiguous range gives
the next contiguous range. -/
theorem seqs_insert_perm (ys zs : List (Option Nat)) (n : Nat)
    (hperm : (ys ++ zs).Perm ((List.range n).map some)) :
    (ys ++ some n :: zs).Perm ((List.range (n + 1)).map some) := by
  refine List.perm_middle.trans ?_
  rw [List.range_succ, List.map_append]
  refine (hperm.cons (some n)).trans ?_
  simpa using (List.perm_append_singleton (some n) ((List.range n).map some)).symm

theorem getLayers_color_eq (v : ViewState) :
    getLayers v (fun l => l.isColorLayer) = colorsOfRoots v.layers := rfl

theorem colorsOfRoots_cons (r : RootLayer) (rs : List RootLayer) :
    colorsOfRoots (r :: rs)
      = r.entriesFiltered (fun l => l.isColorLayer) ++ colorsOfRoots rs := by
  simp [colorsOfRoots]

/-- Every member of the color walk carries the color flag. -/
theorem mem_colorsOfRoots_isColor (roots : List RootLayer) (l : Layer)
    (h : l ∈ colorsOfRoots roots) : l.isColorLayer = true := by
  induction roots with
  | nil => cases h
  | cons r rs ih =>
    rw [colorsOfRoots_cons] at h
    rcases List.mem_append.mp h with h1 | h2
    · unfold RootLayer.entriesFiltered at h1
      rcases List.mem_append.mp h1 with h3 | h4
      · by_cases hc : r.layer.isColorLayer = true
        · rw [if_pos hc] at h3
          rcases List.mem_singleton.mp h3 with rfl
          exact hc
        · rw [if_neg hc] at h3
          cases h3
      · exact List.of_mem_filter h4
    · exact ih h2

theorem attachInto_cons_pos {r : RootLayer} {rs : List RootLayer} {pid : String}
    {child : Layer} (hr : (r.layer.id == pid) = true) :
    attachInto (r :: rs) pid child
      = { r with attachedLayers := r.attachedLayers ++ [child] } :: rs := by
  unfold attachInto
  rw [if_pos hr]

theorem attachInto_cons_neg {r : RootLayer} {rs : List RootLayer} {pid : String}
    {child : Layer} (hr : ¬(r.layer.id == pid) = true) :
    attachInto (r :: rs) pid child = r :: attachInto rs pid child := by
  simp only [attachInto]
  rw [if_neg hr]

/-- `find?` over an append whose first part contains no match. -/
theorem find?_append_first_match {α : Type} (p : α → Bool) (l₁ l₂ : List α) (a : α)
    (h₁ : ∀ b ∈ l₁, ¬p b) (ha : p a) :
    (l₁ ++ a :: l₂).find? p = some a := by
  induction l₁ with
  | nil => exact List.find?_cons_of_pos _ ha
  | cons b bs ih =>
    rw [List.cons_append, List.find?_cons_of_neg _ (h₁ b (by simp))]
    exact ih (fun c hc => h₁ c (by simp [hc]))

/-- Attaching a color child under a present root inserts it into the color
walk, leaving the rest untouched. -/
theorem attachInto_colors_color (pid : String) (child : Layer)
    (hc : child.isColorLayer = true) :
    ∀ roots : List RootLayer, (roots.find? (fun r => r.layer.id == pid)).isSome →
      ∃ A B, colorsOfRoots roots = A ++ B ∧
        colorsOfRoots (attachInto roots pid child) = A ++ child :: B := by
  intro roots
  induction roots with
  | nil => intro h; simp [List.find?] at h
  | cons r rs ih =>
    intro hf
    by_cases hr : (r.layer.id == pid) = true
    · refine ⟨r.entriesFiltered (fun l => l.isColorLayer), colorsOfRoots rs,
        colorsOfRoots_cons r rs, ?_⟩
      rw [attachInto_cons_pos hr, colorsOfRoots_cons]
      unfold RootLayer.entriesFiltered
      simp only [List.filter_append, List.filter_cons, hc]
      simp
    · have hf' : (rs.find? (fun r => r.layer.id == pid)).isSome := by
        have heq : (r :: rs).find? (fun rt => rt.layer.id == pid)
            = rs.find? (fun rt => rt.layer.id == pid) :=
          List.find?_cons_of_neg _ hr
        rwa [heq] at hf
      obtain ⟨A, B, h1, h2⟩ := ih hf'
      refine ⟨r.entriesFiltered (fun l => l.isColorLayer) ++ A, B, ?_, ?_⟩
      · rw [colorsOfRoots_cons, h1, List.append_assoc]
      · rw [attachInto_cons_neg hr, colorsOfRoots_cons, h2, List.append_assoc]

/-- Attaching a non-color child never changes the color walk. -/
theorem attachInto_colors_noncolor (pid : String) (child : Layer)
    (hc : child.isColorLayer = false) :
    ∀ roots : List RootLayer,
      colorsOfRoots (attachInto roots pid child) = colorsOfRoots roots := by
  intro roots
  induction roots with
  | nil => rfl
  | cons r rs ih =>
    by_cases hr : (r.layer.id == pid) = true
    · rw [attachInto_cons_pos hr, colorsOfRoots_cons, colorsOfRoots_cons]
      unfold RootLayer.entriesFiltered
      simp [List.filter_append, List.filter_cons, hc]
    · rw [attachInto_cons_neg hr, colorsOfRoots_cons, colorsOfRoots_cons, ih]

/-- Pushing a fresh detached non-color root never changes the color
walk. -/
theorem colorsOfRoots_append_root (roots : List RootLayer) (l1 : Layer)
    (h : l1.isColorLayer = false) :
    colorsOfRoots (roots ++ [{ layer := l1, attachedLayers := [] }])
      = colorsOfRoots roots := by
  unfold colorsOfRoots
  rw [List.map_append, List.flatten_append]
  simp [RootLayer.entriesFiltered, h]

/-- Detaching the layer found at an attach position splits it out of the
color walk (with its singleton block when it carries the color flag). -/
theorem detachAt_colors_decomp (lid : String) :
    ∀ (roots : List RootLayer) (L : Layer) (pi : Nat),
      findLayerEntry roots lid = some (L, some pi) →
      ∃ A B, colorsOfRoots roots
          = A ++ (if L.isColorLayer then [L] else []) ++ B ∧
        colorsOfRoots (detachAt roots pi lid) = A ++ B := by
  intro roots
  induction roots with
  | nil => intro L pi h; simp [findLayerEntry] at h
  | cons r rs ih =>
    intro L pi hfind
    by_cases hr : (r.layer.id == lid) = true
    · rw [findLayerEntry, if_pos hr] at hfind
      simp at hfind
    · rw [findLayerEntry, if_neg hr] at hfind
      cases hfa : r.attachedLayers.find? (fun l => l.id == lid) with
      | some l0 =>
        rw [hfa] at hfind
        simp only [Option.some.injEq, Prod.mk.injEq] at hfind
        obtain ⟨hL, hp⟩ := hfind
        subst hL
        have hpi : pi = 0 := by
          cases hp.symm
          rfl
        subst hpi
        have hl0mem : l0 ∈ r.attachedLayers := List.mem_of_find?_eq_some hfa
        have hl0p := List.find?_some hfa
        obtain ⟨a', l₁, l₂, hl₁, hpa', hsplit, herase⟩ :=
          List.exists_of_eraseP (p := fun l => l.id == lid) hl0mem hl0p
        have ha' : a' = l0 := by
          rw [hsplit, find?_append_first_match _ l₁ l₂ a' hl₁ hpa'] at hfa
          exact Option.some_inj.mp hfa
        subst ha'
        refine ⟨(if r.layer.isColorLayer then [r.layer] else [])
            ++ l₁.filter (fun l => l.isColorLayer),
          l₂.filter (fun l => l.isColorLayer) ++ colorsOfRoots rs, ?_, ?_⟩
        · rw [colorsOfRoots_cons]
          unfold RootLayer.entriesFiltered
          rw [hsplit]
          by_cases hcl : a'.isColorLayer = true <;>
            simp [List.filter_append, List.filter_cons, hcl, List.append_assoc]
        · rw [show detachAt (r :: rs) 0 lid
              = { r with attachedLayers :=
                  r.attachedLayers.eraseP (fun l => l.id == lid) } :: rs from rfl]
          rw [colorsOfRoots_cons]
          unfold RootLayer.entriesFiltered
          rw [herase]
          simp [List.filter_append, List.append_assoc]
      | none =>
        rw [hfa] at hfind
        cases hrec : findLayerEntry rs lid with
        | none => rw [hrec] at hfind; simp at hfind
        | some e =>
          rw [hrec] at hfind
          simp only [Option.map_some', Option.some.injEq, Prod.mk.injEq] at hfind
          obtain ⟨hL, hp⟩ := hfind
          subst hL
          cases he2 : e.2 with
          | none => rw [he2] at hp; simp at hp
          | some pj =>
            rw [he2] at hp
            simp only [Option.map_some', Option.some.injEq] at hp
            obtain ⟨A, B, h1, h2⟩ := ih e.1 pj (by rw [hrec, ← he2])
            refine ⟨r.entriesFiltered (fun l => l.isColorLayer) ++ A, B, ?_, ?_⟩
            · rw [colorsOfRoots_cons, h1]
              simp [List.append_assoc]
            · rw [← hp]
              rw [show detachAt (r :: rs) (pj + 1) lid = r :: detachAt rs pj lid from rfl]
              rw [colorsOfRoots_cons, h2, List.append_assoc]

/-- Sequence renumbering never changes a layer's color flag. -/
theorem decSeqAfter_isColor (rem l : Layer) :
    (decSeqAfter rem l).isColorLayer = l.isColorLayer := by
  unfold decSeqAfter
  split
  · cases hs : l.sequence <;> cases hrem : rem.sequence <;> simp
    split <;> rfl
  · rfl

/-- The sequence after renumbering, for a color layer, given the removed
layer's sequence is `some s`. -/
theorem decSeqAfter_seq (rem l : Layer) (hc : l.isColorLayer = true) (s : Nat)
    (hs : rem.sequence = some s) :
    (decSeqAfter rem l).sequence
      = (match l.sequence with
         | some t => some (if s < t then t - 1 else t)
         | none => none) := by
  unfold decSeqAfter
  rw [if_pos hc, hs]
  cases ht : l.sequence with
  | none => simp [ht]
  | some t => by_cases hlt : s < t <;> simp [hlt, ht]

/-- The per-layer renumbering map commutes with the color walk. -/
theorem colorsOfRoots_mapLayers (f : Layer → Layer)
    (hf : ∀ l, (f l).isColorLayer = l.isColorLayer) :
    ∀ roots : List RootLayer,
      colorsOfRoots (roots.map (fun r =>
        { layer := f r.layer, attachedLayers := r.attachedLayers.map f }))
        = (colorsOfRoots roots).map f := by
  intro roots
  induction roots with
  | nil => rfl
  | cons r rs ih =>
    rw [List.map_cons, colorsOfRoots_cons, colorsOfRoots_cons, ih, List.map_append]
    congr 1
    unfold RootLayer.entriesFiltered
    rw [List.map_append]
    congr 1
    · by_cases hc : r.layer.isColorLayer = true <;> simp [hf r.layer, hc]
    · rw [List.filter_map]
      congr 1
      exact List.filter_congr (fun a _ => by simp [Function.comp, hf a])

/-- Extent inheritance touches neither the color flag nor the sequence. -/
theorem inheritExtent_keeps (l : Layer) (p : Option Layer) :
    (inheritExtent l p).isColorLayer = l.isColorLayer
      ∧ (inheritExtent l p).sequence = l.sequence := by
  unfold inheritExtent
  cases p with
  | none => exact ⟨rfl, rfl⟩
  | some pl =>
    by_cases he : l.extent.isNone = true <;> simp [he]

/-- CRS resolution touches neither the color flag nor the sequence. -/
theorem preprocessCrs_keeps (rc : String) (l1 : Layer) (p : Option Layer) (l2 : Layer)
    (h : preprocessCrs rc l1 p = .ok l2) :
    l2.isColorLayer = l1.isColorLayer ∧ l2.sequence = l1.sequence := by
  unfold preprocessCrs at h
  repeat' split at h
  all_goals first
    | (cases h; exact ⟨rfl, rfl⟩)
    | cases h

/-- `_preprocessLayer` only rewrites `extent`, `sourceExtent` and `crs`:
the color flag and the sequence survive. -/
theorem preprocessLayer_keeps (rc : String) (l : Layer) (p : Option Layer) (l1 : Layer)
    (h : preprocessLayer rc l p = .ok l1) :
    l1.isColorLayer = l.isColorLayer ∧ l1.sequence = l.sequence := by
  unfold preprocessLayer at h
  obtain ⟨ha, hb⟩ := preprocessCrs_keeps rc (inheritExtent l p) p l1 h
  obtain ⟨hc, hd⟩ := inheritExtent_keeps l p
  exact ⟨ha.trans hc, hb.trans hd⟩

/-- Contiguity of color sequences only depends on the color walk. -/
theorem contiguous_congr {v w : ViewState}
    (h : getLayers v (fun l => l.isColorLayer) = getLayers w (fun l => l.isColorLayer)) :
    colorSequencesContiguous v ↔ colorSequencesContiguous w := by
  unfold colorSequencesContiguous
  rw [h]

/-- Inversion for a bound `Except` computation ending in success. -/
theorem except_bind_ok {α β : Type} (x : Except JsError α) (f : α → Except JsError β) (b : β)
    (h : (x >>= f) = .ok b) : ∃ a, x = .ok a ∧ f a = .ok b := by
  cases x with
  | error e =>
    exfalso
    simp only [Bind.bind, Except.bind] at h
    cases h
  | ok a =>
    refine ⟨a, rfl, ?_⟩
    simpa only [Bind.bind, Except.bind] using h

/-- Contiguity spelled over an explicit root list. -/
theorem contiguous_layers (v : ViewState) (L : List RootLayer) :
    colorSequencesContiguous { v with layers := L } ↔
      ((colorsOfRoots L).map (·.sequence)).Perm
        ((List.range (colorsOfRoots L).length).map some) :=
  Iff.rfl

/-- C5 (amended): color-layer sequence contiguity is an invariant of the
operations that manage it — `addLayer` with a parent (which assigns the
new color layer the current color count as its sequence), `addLayer` of a
non-color root layer, and `removeLayer` of an attached layer (for a color
layer, every greater sequence is decremented).  It is not an invariant of
every operation: removing a root layer whose attached sublayers include
color layers triggers no renumbering (see the counterexample). -/
theorem colorSequences_contiguity (v : ViewState) (hcont : colorSequencesContiguous v) :
    (∀ (layer : Layer) (pid : String) (r : AddResult) (v' : ViewState),
        addLayer v layer (some pid) = .ok (r, v') → colorSequencesContiguous v') ∧
    (∀ (layer : Layer) (r : AddResult) (v' : ViewState),
        layer.isColorLayer = false →
        addLayer v layer none = .ok (r, v') → colorSequencesContiguous v') ∧
    (∀ (g : GlobalState) (vi : Nat) (lid : String) (L : Layer) (pi : Nat),
        g.views[vi]? = some v →
        findLayerEntry v.layers lid = some (L, some pi) →
        ∃ g' tr v', removeLayerG g vi lid = .ok (g', true, tr) ∧
          g'.views[vi]? = some v' ∧ colorSequencesContiguous v') := by
  have hcv : ((colorsOfRoots v.layers).map (·.sequence)).Perm
      ((List.range (colorsOfRoots v.layers).length).map some) := by
    have := hcont
    unfold colorSequencesContiguous at this
    rw [getLayers_color_eq] at this
    exact this
  refine ⟨?_, ?_, ?_⟩
  · -- addLayer with a parent root
    intro layer pid r v' h
    unfold addLayer at h
    simp only [] at h
    split at h
    · cases h
      exact hcont
    · split at h
      · cases h
        exact hcont
      · split at h
        · cases h
        · rename_i proot hfp
          rw [hfp] at h
          simp only [Option.map_some'] at h
          obtain ⟨layer1, hpre, h⟩ := except_bind_ok _ _ _ h
          by_cases hcl : layer1.isColorLayer = true
          · rw [if_pos hcl] at h
            cases h
            obtain ⟨A, B, hAB1, hAB2⟩ := attachInto_colors_color pid ({ layer1 with sequence := some (getLayers v (fun l => l.isColorLayer)).length }) (by simpa using hcl) v.layers (by rw [hfp]; rfl)
            rw [contiguous_layers, hAB2, List.map_append, List.map_cons]
            rw [show ({ layer1 with sequence := some (getLayers v (fun l => l.isColorLayer)).length } : Layer).sequence = some (getLayers v (fun l => l.isColorLayer)).length from rfl]
            have hn : (getLayers v (fun l => l.isColorLayer)).length = (A ++ B).length := by
              rw [getLayers_color_eq, hAB1]
            have hperm : (A.map (·.sequence) ++ B.map (·.sequence)).Perm
                ((List.range (A ++ B).length).map some) := by
              rw [← List.map_append]
              have hx := hcv
              rw [hAB1] at hx
              simpa using hx
            have hins := seqs_insert_perm (A.map (·.sequence)) (B.map (·.sequence))
              (A ++ B).length hperm
            rw [hn]
            have hlen3 : (A ++ ({ layer1 with sequence := some (A ++ B).length } : Layer) :: B).length = (A ++ B).length + 1 := by
              simp
              omega
            rw [hlen3]
            simpa using hins
          · rw [if_neg hcl] at h
            cases h
            refine (contiguous_congr ?_).mpr hcont
            rw [getLayers_color_eq, getLayers_color_eq]
            exact attachInto_colors_noncolor pid layer1 (by simpa using hcl) v.layers
  · -- addLayer of a non-color root layer
    intro layer r v' hncolor h
    unfold addLayer at h
    simp only [] at h
    split at h
    · cases h
      exact hcont
    · split at h
      · cases h
        exact hcont
      · obtain ⟨layer1, hpre, h⟩ := except_bind_ok _ _ _ h
        have hflag := (preprocessLayer_keeps _ _ _ _ hpre).1
        by_cases hup : layer1.hasUpdate = true
        · rw [if_neg (by simp [hup])] at h
          by_cases hpup : layer1.hasPreUpdate = true
          · rw [if_neg (by simp [hpup])] at h
            cases h
            refine (contiguous_congr ?_).mpr hcont
            rw [getLayers_color_eq, getLayers_color_eq]
            exact colorsOfRoots_append_root v.layers layer1 (hflag.trans hncolor)
          · rw [if_pos (by simp [hpup])] at h
            cases h
            exact hcont
        · rw [if_pos (by simp [hup])] at h
          cases h
          exact hcont
  · -- removeLayer of an attached layer
    intro g vi lid L pi hv hfind
    have hlen : vi < g.views.length := by
      rcases List.getElem?_eq_some.mp hv with ⟨hl, _⟩
      exact hl
    unfold removeLayerG
    simp only [hv]
    rw [hfind]
    refine ⟨_, _, _, rfl, List.getElem?_set_eq_of_lt _ hlen, ?_⟩
    obtain ⟨A, B, hAB1, hAB2⟩ := detachAt_colors_decomp lid v.layers L pi hfind
    by_cases hLc : L.isColorLayer = true
    · rw [if_pos hLc] at hAB1
      rw [if_pos hLc]
      have hLmem : L ∈ colorsOfRoots v.layers := by
        rw [hAB1]
        simp
      obtain ⟨s, hs⟩ : ∃ s, L.sequence = some s := by
        have hmem2 : L.sequence ∈ (colorsOfRoots v.layers).map (·.sequence) :=
          List.mem_map_of_mem _ hLmem
        have hmem3 := hcv.mem_iff.mp hmem2
        rcases List.mem_map.mp hmem3 with ⟨t, _, hts⟩
        exact ⟨t, hts.symm⟩
      refine (contiguous_layers v _).mpr ?_
      rw [colorsOfRoots_mapLayers _ (decSeqAfter_isColor L), hAB2, List.map_map]
      have hpm : (A ++ B).map ((·.sequence) ∘ decSeqAfter L)
          = ((A ++ B).map (·.sequence)).map (fun x => match x with
              | some t => some (if s < t then t - 1 else t)
              | none => none) := by
        rw [List.map_map]
        refine List.map_congr_left (fun a ha => ?_)
        have hac : a.isColorLayer = true := by
          refine mem_colorsOfRoots_isColor (detachAt v.layers pi lid) a ?_
          rw [hAB2]
          exact ha
        exact decSeqAfter_seq L a hac s hs
      rw [hpm]
      have hperm : (A.map (·.sequence) ++ (some s) :: B.map (·.sequence)).Perm
          ((List.range (colorsOfRoots v.layers).length).map some) := by
        have hx := hcv
        nth_rewrite 1 [hAB1] at hx
        simpa [hs] using hx
      have hres := seqs_remove_renumber_perm s (colorsOfRoots v.layers).length
        (A.map (·.sequence)) (B.map (·.sequence)) hperm
      rw [← List.map_append] at hres
      have hlen2 : ((A ++ B).map (decSeqAfter L)).length
          = (colorsOfRoots v.layers).length - 1 := by
        rw [hAB1]
        simp
      rw [hlen2]
      exact hres
    · rw [if_neg hLc] at hAB1
      rw [if_neg hLc]
      refine (contiguous_congr ?_).mpr hcont
      rw [getLayers_color_eq, getLayers_color_eq]
      rw [show ({ v with layers := detachAt v.layers pi lid } : ViewState).layers
          = detachAt v.layers pi lid from rfl]
      rw [hAB2, hAB1]
      simp

/-- C5 counterexample: the sequences of `viewC`'s color layers form the
contiguous range 0..1, yet `removeLayer` of the root terrain layer
`"terrain1"` — whose attached sublayer is the color layer with
sequence 0 — performs no renumbering (the removed layer is not a color
layer), so the remaining color layer keeps sequence 1 and contiguity is
lost.  This refutes "contiguity is preserved by every
addLayer/removeLayer operation". -/
theorem removeLayer_root_breaks_color_contiguity :
    colorSequencesContiguous viewC ∧
    removeLayerG sampleGC 0 "terrain1"
      = .ok ({ views := [{ viewC with layers := viewC.layers.drop 1 }] }, true,
             { onLayerRemovedUnusedCrs := some (some "EPSG:4978")
               notifiedCamera := true
               layerRemovedEvent := some "terrain1" }) ∧
    ¬ colorSequencesContiguous { viewC with layers := viewC.layers.drop 1 } :=
  ⟨by decide, by rfl, by decide⟩

/-- Concrete instantiation of the amended contiguity invariant: removing
the attached color layer `"ortho"` (sequence 0) of `viewA` keeps the
color sequences contiguous. -/
theorem colorSequences_contiguity_witness :
    ∃ g' tr v', removeLayerG sampleG 0 "ortho" = .ok (g', true, tr) ∧
      g'.views[0]? = some v' ∧ colorSequencesContiguous v' :=
  (colorSequences_contiguity viewA (by decide)).2.2 sampleG 0 "ortho" orthoA 0
    (by decide) (by decide)

/-! ## C4 — deferred frame-requester removal -/

/-- Updating the binding of a present key. -/
theorem lookup_assocSet (m : List (String × List FR)) (k : String) (frs : List FR)
    (h : (m.lookup k).isSome) : (assocSet m k frs).lookup k = some frs := by
  induction m with
  | nil => simp [List.lookup] at h
  | cons kv m ih =>
    unfold assocSet
    rw [List.map_cons]
    by_cases hk : (kv.1 == k) = true
    · rw [if_pos hk]
      simp [List.lookup]
    · rw [if_neg hk]
      have hkne : kv.1 ≠ k := by simpa using hk
      have hk2 : (k == kv.1) = false := beq_eq_false_iff_ne.mpr (fun he => hkne he.symm)
      simp only [List.lookup, hk2] at h ⊢
      simpa [assocSet] using ih h

/-- The invocation loop: every requester of the snapshot is invoked once
in order, self-removers are queued (no `console.error`, the live list is
untouched), and nothing else changes. -/
theorem runFRList_ok (w : String) (rsLive : List FR) :
    ∀ (rs : List FR) (v : ViewState) (t : ExecTrace),
      v.frameRequesters.lookup w = some rsLive →
      (∀ fr ∈ rs, fr ∈ rsLive) →
      runFRList w rs v t = .ok
        ({ v with delayedRemovals :=
            v.delayedRemovals ++ (rs.filter (·.removesSelf)).map (fun fr => (w, fr)) },
         { t with invoked := t.invoked ++ rs.map (·.frid) }) := by
  intro rs
  induction rs with
  | nil =>
    intro v t _ _
    simp [runFRList]
  | cons fr rest ih =>
    intro v t hw hmem
    rw [runFRList]
    by_cases hs : fr.removesSelf = true
    · have hinv : invokeFR v w fr = .ok
          ({ v with delayedRemovals := v.delayedRemovals ++ [(w, fr)] }, false) := by
        unfold invokeFR removeFrameRequesterV
        rw [if_pos hs]
        simp only [hw]
        rw [if_pos (hmem fr (by simp))]
      rw [hinv]
      show runFRList w rest _ _ = _
      rw [ih ({ v with delayedRemovals := v.delayedRemovals ++ [(w, fr)] }) _ hw
        (fun a ha => hmem a (by simp [ha]))]
      simp [hs, List.filter_cons]
    · have hinv : invokeFR v w fr = .ok (v, false) := by
        unfold invokeFR
        rw [if_neg hs]
      rw [hinv]
      show runFRList w rest _ _ = _
      rw [ih _ _ hw (fun a ha => hmem a (by simp [ha]))]
      simp [hs, List.filter_cons]

/-- Draining the pending-removal queue (all entries at one attach point):
it succeeds, the surviving list is a sublist of the previous one, the
queue is cleared, and every queued requester is gone from the list. -/
theorem executeRemovals_spec (w : String) :
    ∀ (D : List (String × FR)) (v : ViewState) (k : Nat) (cur : List FR),
      (∀ e ∈ D, e.1 = w) →
      v.frameRequesters.lookup w = some cur →
      cur.Nodup →
      ∃ v' k' cur',
        (D.foldlM (fun (acc : ViewState × Nat) entry => do
            let (v1, warned) ← applyRemoval acc.1 entry
            pure (v1, acc.2 + (if warned then 1 else 0))) (v, k)) = .ok (v', k') ∧
        v'.frameRequesters.lookup w = some cur' ∧
        cur'.Sublist cur ∧ cur'.Nodup ∧
        v'.delayedRemovals = v.delayedRemovals ∧
        ∀ F : FR, (w, F) ∈ D → F ∉ cur' := by
  intro D
  induction D with
  | nil =>
    intro v k cur _ hw hnd
    exact ⟨v, k, cur, rfl, hw, List.Sublist.refl cur, hnd, rfl, fun F hF => absurd hF (by simp)⟩
  | cons e D ih =>
    intro v k cur hkeys hw hnd
    have hkey : e.1 = w := hkeys e (by simp)
    by_cases hin : e.2 ∈ cur
    · have happ : applyRemoval v e = .ok
          ({ v with frameRequesters := assocSet v.frameRequesters w (cur.erase e.2) }, false) := by
        unfold applyRemoval
        rw [hkey]
        simp only [hw]
        rw [if_pos hin]
      have hw1 : List.lookup w ({ v with frameRequesters := assocSet v.frameRequesters w (cur.erase e.2) } : ViewState).frameRequesters = some (cur.erase e.2) := by
        show List.lookup w (assocSet v.frameRequesters w (cur.erase e.2)) = some (cur.erase e.2)
        exact lookup_assocSet _ _ _ (by rw [hw]; rfl)
      obtain ⟨v', k', cur', hfold, hw', hsub, hnd', hdel, hgone⟩ :=
        ih ({ v with frameRequesters := assocSet v.frameRequesters w (cur.erase e.2) }) k
          (cur.erase e.2) (fun a ha => hkeys a (by simp [ha])) hw1 (hnd.erase e.2)
      refine ⟨v', k', cur', ?_, hw', hsub.trans (cur.erase_sublist e.2), hnd', hdel, ?_⟩
      · simp only [List.foldlM_cons, happ]
        exact hfold
      · intro F hF
        rcases List.mem_cons.mp hF with hF1 | hF2
        · have hFe : F = e.2 := by
            have h2 := congrArg Prod.snd hF1
            simpa using h2
          rw [hFe]
          intro hmem'
          exact (hnd.mem_erase_iff.mp (hsub.subset hmem')).1 rfl
        · exact hgone F hF2
    · have happ : applyRemoval v e = .ok (v, true) := by
        unfold applyRemoval
        rw [hkey]
        simp only [hw]
        rw [if_neg hin]
      obtain ⟨v', k', cur', hfold, hw', hsub, hnd', hdel, hgone⟩ :=
        ih v (k + 1) cur (fun a ha => hkeys a (by simp [ha])) hw hnd
      refine ⟨v', k', cur', ?_, hw', hsub, hnd', hdel, ?_⟩
      · simp only [List.foldlM_cons, happ]
        exact hfold
      · intro F hF
        rcases List.mem_cons.mp hF with hF1 | hF2
        · have hFe : F = e.2 := by
            have h2 := congrArg Prod.snd hF1
            simpa using h2
          rw [hFe]
          intro hmem'
          exact hin (hsub.subset hmem')
        · exact hgone F hF2

/-- C4: a frame requester that unregisters itself during its own
invocation does not throw and does not corrupt the iteration in progress
(every requester of the cycle, itself included, is invoked exactly once,
in order, with no `console.error`); its removal is deferred (it is still
in the live list immediately after the call, with its removal queued);
and at the start of the next cycle it is actually unlinked and never
invoked again. -/
theorem frameRequester_self_removal_deferred (v : ViewState) (w : String) (rs : List FR)
    (F : FR)
    (hw : v.frameRequesters.lookup w = some rs)
    (hd : v.delayedRemovals = [])
    (hmem : F ∈ rs) (hself : F.removesSelf = true)
    (hnodup : (rs.map (·.frid)).Nodup) :
    ∃ v1 t1, execFrameRequestersV v w = .ok (v1, t1) ∧
      t1.invoked = rs.map (·.frid) ∧
      t1.invoked.count F.frid = 1 ∧
      t1.errorsLogged = 0 ∧
      v1.frameRequesters.lookup w = some rs ∧
      (w, F) ∈ v1.delayedRemovals ∧
      ∃ v2 t2 rs2, execFrameRequestersV v1 w = .ok (v2, t2) ∧
        v2.frameRequesters.lookup w = some rs2 ∧ F ∉ rs2 ∧
        F.frid ∉ t2.invoked := by
  have hrun := runFRList_ok w rs rs v
    { invoked := [], errorsLogged := 0, warnsLogged := 0 } hw (fun a ha => ha)
  have hexec1 : execFrameRequestersV v w = .ok
      ({ v with delayedRemovals :=
          v.delayedRemovals ++ (rs.filter (·.removesSelf)).map (fun fr => (w, fr)) },
       { invoked := [] ++ rs.map (·.frid), errorsLogged := 0, warnsLogged := 0 }) := by
    unfold execFrameRequestersV
    simp only [hw]
    rw [if_neg (by rw [hd]; simp)]
    show (match v.frameRequesters.lookup w with
          | none => Except.error (JsError.error "model artifact: requester list vanished")
          | some frs1 =>
              runFRList w frs1 v { invoked := [], errorsLogged := 0, warnsLogged := 0 }) = _
    simp only [hw]
    exact hrun
  refine ⟨_, _, hexec1, by simp, ?_, rfl, hw, ?_, ?_⟩
  · simp only [List.nil_append]
    exact List.count_eq_one_of_mem hnodup (List.mem_map_of_mem _ hmem)
  · show (w, F) ∈ v.delayedRemovals ++ (rs.filter (·.removesSelf)).map (fun fr => (w, fr))
    refine List.mem_append_right _ ?_
    exact List.mem_map_of_mem _ (List.mem_filter.mpr ⟨hmem, hself⟩)
  · -- the next cycle
    have hD : ({ v with delayedRemovals :=
        v.delayedRemovals ++ (rs.filter (·.removesSelf)).map (fun fr => (w, fr)) } :
          ViewState).delayedRemovals
        = (rs.filter (·.removesSelf)).map (fun fr => (w, fr)) := by
      show v.delayedRemovals ++ _ = _
      rw [hd]
      exact List.nil_append _
    have hFD : (w, F) ∈ (rs.filter (·.removesSelf)).map (fun fr => (w, fr)) :=
      List.mem_map_of_mem _ (List.mem_filter.mpr ⟨hmem, hself⟩)
    obtain ⟨v', k', cur', hfold, hw', hsub, hnd', hdel, hgone⟩ :=
      executeRemovals_spec w ((rs.filter (·.removesSelf)).map (fun fr => (w, fr)))
        ({ v with delayedRemovals :=
          v.delayedRemovals ++ (rs.filter (·.removesSelf)).map (fun fr => (w, fr)) })
        0 rs (by
          intro e he
          rcases List.mem_map.mp he with ⟨a, _, rfl⟩
          rfl)
        hw (List.Nodup.of_map _ hnodup)
    have hrem : executeFrameRequestersRemovals
        ({ v with delayedRemovals :=
          v.delayedRemovals ++ (rs.filter (·.removesSelf)).map (fun fr => (w, fr)) })
        = .ok ({ v' with delayedRemovals := [] }, k') := by
      unfold executeFrameRequestersRemovals
      rw [hD, hfold]
      rfl
    have hw2 : ({ v' with delayedRemovals := [] } : ViewState).frameRequesters.lookup w
        = some cur' := hw'
    have hrun2 := runFRList_ok w cur' cur' ({ v' with delayedRemovals := [] })
      { invoked := [], errorsLogged := 0, warnsLogged := k' } hw2 (fun a ha => ha)
    have hexec2 : execFrameRequestersV
        ({ v with delayedRemovals :=
          v.delayedRemovals ++ (rs.filter (·.removesSelf)).map (fun fr => (w, fr)) }) w
        = .ok
          ({ { v' with delayedRemovals := [] } with delayedRemovals :=
              ([] : List (String × FR)) ++ (cur'.filter (·.removesSelf)).map (fun fr => (w, fr)) },
           { invoked := [] ++ cur'.map (·.frid), errorsLogged := 0, warnsLogged := k' }) := by
      unfold execFrameRequestersV
      simp only [hw]
      rw [if_pos (show (v.delayedRemovals
            ++ (rs.filter (·.removesSelf)).map (fun fr => (w, fr))).length > 0 by
        rw [hd]
        simpa using List.length_pos.mpr (fun hnil => by rw [hnil] at hFD; cases hFD))]
      rw [hrem]
      show (match ({ v' with delayedRemovals := [] } : ViewState).frameRequesters.lookup w with
            | none => Except.error (JsError.error "model artifact: requester list vanished")
            | some frs1 => runFRList w frs1 ({ v' with delayedRemovals := [] })
                { invoked := [], errorsLogged := 0, warnsLogged := k' }) = _
      simp only [hw2]
      exact hrun2
    refine ⟨_, _, cur', hexec2, hw', ?_, ?_⟩
    · exact hgone F hFD
    · intro hmem2
      simp only [List.nil_append] at hmem2
      rcases List.mem_map.mp hmem2 with ⟨a, ha, haid⟩
      have haF : a = F :=
        List.inj_on_of_nodup_map hnodup (hsub.subset ha) hmem haid
      exact hgone F hFD (haF ▸ ha)

/-- Concrete self-removal: requester 1 of `frView` removes itself during
cycle one, runs exactly once there, stays in the live list until the next
cycle drains the queue, and never runs again. -/
theorem frameRequester_self_removal_deferred_witness :
    ∃ v1 t1, execFrameRequestersV frView "before_layer_update" = .ok (v1, t1) ∧
      t1.invoked = ([{ frid := 1, removesSelf := true },
                     { frid := 2, removesSelf := false }] : List FR).map (·.frid) ∧
      t1.invoked.count 1 = 1 ∧
      t1.errorsLogged = 0 ∧
      v1.frameRequesters.lookup "before_layer_update"
          = some [{ frid := 1, removesSelf := true }, { frid := 2, removesSelf := false }] ∧
      ("before_layer_update", ({ frid := 1, removesSelf := true } : FR)) ∈ v1.delayedRemovals ∧
      ∃ v2 t2 rs2, execFrameRequestersV v1 "before_layer_update" = .ok (v2, t2) ∧
        v2.frameRequesters.lookup "before_layer_update" = some rs2 ∧
        ({ frid := 1, removesSelf := true } : FR) ∉ rs2 ∧
        (1 : Nat) ∉ t2.invoked :=
  frameRequester_self_removal_deferred frView "before_layer_update"
    [{ frid := 1, removesSelf := true }, { frid := 2, removesSelf := false }]
    { frid := 1, removesSelf := true }
    (by decide) (by decide) (by decide) (by decide) (by decide)

/-! ## C9 — double dispose -/

/-- A successful `foldlM` over `Except` preserves any invariant each
successful step preserves. -/
theorem foldlM_except_inv {α σ : Type} (P : σ → Prop) (f : σ → α → Except JsError σ)
    (hf : ∀ s a s', P s → f s a = .ok s' → P s') :
    ∀ (l : List α) (s s' : σ), P s → l.foldlM f s = .ok s' → P s' := by
  intro l
  induction l with
  | nil =>
    intro s s' hs h
    rw [List.foldlM_nil] at h
    cases h
    exact hs
  | cons a rest ih =>
    intro s s' hs h
    rw [List.foldlM_cons] at h
    obtain ⟨s1, h1, h2⟩ := except_bind_ok _ _ _ h
    exact ih s1 s' (hf s a s1 hs h1) h2

/-- `removeFrameRequester` leaves the view id unchanged. -/
theorem removeFrameRequesterV_vid (v : ViewState) (w : String) (fr : FR)
    (r : ViewState × Bool) (h : removeFrameRequesterV v w fr = .ok r) :
    r.1.vid = v.vid := by
  unfold removeFrameRequesterV at h
  cases hl : v.frameRequesters.lookup w with
  | none => rw [hl] at h; cases h
  | some frs =>
    simp only [hl] at h
    by_cases hm : fr ∈ frs
    · rw [if_pos hm] at h
      cases h
      rfl
    · rw [if_neg hm] at h
      cases h
      rfl

/-- One queue-draining step leaves the view id unchanged. -/
theorem applyRemoval_vid (v : ViewState) (e : String × FR)
    (r : ViewState × Bool) (h : applyRemoval v e = .ok r) :
    r.1.vid = v.vid := by
  unfold applyRemoval at h
  cases hl : v.frameRequesters.lookup e.1 with
  | none => rw [hl] at h; cases h
  | some frs =>
    simp only [hl] at h
    by_cases hm : e.2 ∈ frs
    · rw [if_pos hm] at h
      cases h
      rfl
    · rw [if_neg hm] at h
      cases h
      rfl

/-- Draining the pending-removal queue leaves the view id unchanged. -/
theorem executeFRR_vid (v : ViewState) (r : ViewState × Nat)
    (h : executeFrameRequestersRemovals v = .ok r) : r.1.vid = v.vid := by
  unfold executeFrameRequestersRemovals at h
  obtain ⟨res, hres, h2⟩ := except_bind_ok _ _ _ h
  cases h2
  show res.1.vid = v.vid
  refine foldlM_except_inv (fun acc : ViewState × Nat => acc.1.vid = v.vid) _ ?_
    v.delayedRemovals (v, 0) res rfl hres
  intro s a s' hs hstep
  obtain ⟨q, hq, h3⟩ := except_bind_ok _ _ _ hstep
  obtain ⟨v1, warned⟩ := q
  cases h3
  exact (applyRemoval_vid s.1 a (v1, warned) hq).trans hs

/-- `removeAllFrameRequesters` leaves the view id unchanged. -/
theorem removeAllFRV_vid (v : ViewState) (r : ViewState × Nat × Nat)
    (h : removeAllFrameRequestersV v = .ok r) : r.1.vid = v.vid := by
  unfold removeAllFrameRequestersV at h
  obtain ⟨res, hres, h2⟩ := except_bind_ok _ _ _ h
  obtain ⟨q, hq, h3⟩ := except_bind_ok _ _ _ h2
  obtain ⟨v2, warns⟩ := q
  cases h3
  show v2.vid = v.vid
  have hres1 : res.1.vid = v.vid := by
    refine foldlM_except_inv (fun acc : ViewState × Nat => acc.1.vid = v.vid) _ ?_
      v.frameRequesters (v, 0) res rfl hres
    intro s kv s' hs hstep
    refine foldlM_except_inv (fun acc2 : ViewState × Nat => acc2.1.vid = v.vid) _ ?_
      kv.2 s s' hs hstep
    intro s2 fr s2' hs2 hstep2
    obtain ⟨q2, hq2, h4⟩ := except_bind_ok _ _ _ hstep2
    obtain ⟨v1, errLogged⟩ := q2
    cases h4
    exact (removeFrameRequesterV_vid s2.1 kv.1 fr (v1, errLogged) hq2).trans hs2
  exact (executeFRR_vid res.1 (v2, warns) hq).trans hres1

/-- Setting a position to an element with the same image leaves the
mapped list unchanged. -/
theorem map_set_eq {α β : Type} (f : α → β) :
    ∀ (l : List α) (i : Nat) (a x : α), l[i]? = some x → f a = f x →
      (l.set i a).map f = l.map f := by
  intro l
  induction l with
  | nil =>
    intro i a x hx _
    rw [List.getElem?_nil] at hx
    cases hx
  | cons b bs ih =>
    intro i a x hx hf
    cases i with
    | zero =>
      rw [List.getElem?_cons_zero] at hx
      cases hx
      simp [hf]
    | succ j =>
      rw [List.getElem?_cons_succ] at hx
      simp [ih j a x hx hf]

/-- `removeLayer` touches only the layer lists, never the `viewers`
membership: the per-view id sequence is unchanged. -/
theorem removeLayerG_vids (g : GlobalState) (vi : Nat) (lid : String)
    (r : GlobalState × Bool × RemoveTrace)
    (h : removeLayerG g vi lid = .ok r) :
    r.1.views.map (·.vid) = g.views.map (·.vid) := by
  unfold removeLayerG at h
  cases hv : g.views[vi]? with
  | none => rw [hv] at h; cases h
  | some v =>
    simp only [hv] at h
    cases hf : findLayerEntry v.layers lid with
    | none =>
      simp only [hf] at h
      cases h
    | some e =>
      obtain ⟨L, pidx⟩ := e
      simp only [hf] at h
      cases h
      refine map_set_eq _ g.views vi _ v hv ?_
      cases pidx <;> by_cases hc : L.isColorLayer <;>
        simp [hc, ViewState.mapLayers]

/-- The `removeLayer` loops of `dispose` leave the per-view id sequence
unchanged. -/
theorem removeLayersByIds_vids (vi : Nat) :
    ∀ (ids : List String) (g g' : GlobalState),
      removeLayersByIds g vi ids = .ok g' →
      g'.views.map (·.vid) = g.views.map (·.vid) := by
  intro ids
  induction ids with
  | nil =>
    intro g g' h
    unfold removeLayersByIds at h
    rw [List.foldlM_nil] at h
    cases h
    rfl
  | cons lid rest ih =>
    intro g g' h
    unfold removeLayersByIds at h
    rw [List.foldlM_cons] at h
    obtain ⟨g1, h1, h2⟩ := except_bind_ok _ _ _ h
    obtain ⟨r, hr, h3⟩ := except_bind_ok _ _ _ h1
    cases h3
    have hx := removeLayerG_vids g vi lid r hr
    have hy := ih r.1 g' h2
    rw [hy, hx]

/-- Mapping commutes with `eraseIdx`. -/
theorem map_eraseIdx_comm {α β : Type} (f : α → β) :
    ∀ (l : List α) (i : Nat), (l.eraseIdx i).map f = (l.map f).eraseIdx i := by
  intro l
  induction l with
  | nil => intro i; simp
  | cons a rest ih =>
    intro i
    cases i with
    | zero => simp
    | succ j => simp [ih j]

/-- In a duplicate-free list, an element sits at one position only. -/
theorem nodup_getElem?_inj {α : Type} {l : List α} (hn : l.Nodup) {i j : Nat} {x : α}
    (hi : l[i]? = some x) (hj : l[j]? = some x) : i = j := by
  obtain ⟨hil, hie⟩ := List.getElem?_eq_some.mp hi
  obtain ⟨hjl, hje⟩ := List.getElem?_eq_some.mp hj
  exact (List.Nodup.getElem_inj_iff hn).mp (hie.trans hje.symm)

/-- A successful `findIdx?` reports a position whose element satisfies
the predicate. -/
theorem findIdx?_some_getElem {α : Type} (p : α → Bool) :
    ∀ (l : List α) (i : Nat), l.findIdx? p = some i →
      ∃ x, l[i]? = some x ∧ p x = true := by
  intro l
  induction l with
  | nil =>
    intro i h
    rw [List.findIdx?_nil] at h
    cases h
  | cons a rest ih =>
    intro i h
    rw [List.findIdx?_cons] at h
    by_cases hp : p a = true
    · rw [if_pos hp] at h
      cases h
      exact ⟨a, by rw [List.getElem?_cons_zero], hp⟩
    · rw [if_neg hp, List.findIdx?_succ] at h
      cases hrec : rest.findIdx? p with
      | none =>
        rw [hrec] at h
        cases h
      | some j =>
        rw [hrec] at h
        have h2 : j + 1 = i := by simpa using h
        subst h2
        obtain ⟨x, hx, hpx⟩ := ih j hrec
        exact ⟨x, by rw [List.getElem?_cons_succ]; exact hx, hpx⟩

/-- C9: after a first successful `dispose` (the registry lookup found the
view, so no warning was logged), the view is absent from the `viewers`
registry, and a second `dispose` call detects that absence
(`viewers.indexOf(this) < 0`), logs the `'View already disposed'` warning
and returns immediately: no layer removal, no second `disposed` event,
and the state is untouched. -/
theorem dispose_second_call_warns (g : GlobalState) (vid : Nat)
    (g1 : GlobalState) (t1 : DisposeTrace)
    (hnodup : (g.views.map (·.vid)).Nodup)
    (h : disposeG g vid = .ok (g1, t1)) (hfound : t1.warned = false) :
    vid ∉ g1.views.map (·.vid) ∧
      disposeG g1 vid =
        .ok (g1, { warned := true, removedLayerIds := [], disposedEvent := false }) := by
  have hmain : vid ∉ g1.views.map (·.vid) := by
    unfold disposeG at h
    cases hidx : g.views.findIdx? (fun v => v.vid == vid) with
    | none =>
      rw [hidx] at h
      cases h
      simp at hfound
    | some i =>
      simp only [hidx] at h
      obtain ⟨v0, hv0, hpv0⟩ := findIdx?_some_getElem _ g.views i hidx
      have hvid0 : v0.vid = vid := by simpa using hpv0
      simp only [hv0] at h
      obtain ⟨r, hr, h⟩ := except_bind_ok _ _ _ h
      obtain ⟨gA, hA, h⟩ := except_bind_ok _ _ _ h
      cases hA
      obtain ⟨gB, hB, h⟩ := except_bind_ok _ _ _ h
      obtain ⟨gC, hC, h⟩ := except_bind_ok _ _ _ h
      obtain ⟨gD, hD, h⟩ := except_bind_ok _ _ _ h
      cases h
      have e1 : ({ views := g.views.set i r.1 } : GlobalState).views.map (·.vid)
          = g.views.map (·.vid) :=
        map_set_eq _ g.views i r.1 v0 hv0 (removeAllFRV_vid v0 r hr)
      have e2 := removeLayersByIds_vids i _ _ gB hB
      have e3 := removeLayersByIds_vids i _ _ gC hC
      have e4 := removeLayersByIds_vids i _ _ gD hD
      intro hmem
      have hmem1 : vid ∈ (gD.views.eraseIdx i).map (·.vid) := hmem
      rw [map_eraseIdx_comm, e4, e3, e2, e1] at hmem1
      obtain ⟨j, hji, hjv⟩ := (List.mem_eraseIdx_iff_getElem?).mp hmem1
      have hiv : (g.views.map (·.vid))[i]? = some vid := by
        rw [List.getElem?_map, hv0]
        simp [hvid0]
      exact hji (nodup_getElem?_inj hnodup hjv hiv)
  refine ⟨hmain, ?_⟩
  have hnone : g1.views.findIdx? (fun v => v.vid == vid) = none := by
    rw [List.findIdx?_eq_none_iff]
    intro w hwmem
    show (w.vid == vid) = false
    rw [beq_eq_false_iff_ne]
    intro hwv
    exact hmain (List.mem_map.mpr ⟨w, hwmem, hwv⟩)
  unfold disposeG
  rw [hnone]

/-- Concrete double dispose: disposing view 1 of `sampleG` tears it down
(its two layers are removed, the `disposed` event fires) and unregisters
it; the second call finds it missing, warns and changes nothing. -/
theorem dispose_second_call_warns_witness :
    1 ∉ ({ views := [viewA] } : GlobalState).views.map (·.vid) ∧
      disposeG { views := [viewA] } 1 =
        .ok ({ views := [viewA] },
             { warned := true, removedLayerIds := [], disposedEvent := false }) :=
  dispose_second_call_warns sampleG 1 { views := [viewA] }
    { warned := false, removedLayerIds := ["orthoB", "tilesB"], disposedEvent := true }
    (by decide) (by rfl) rfl

end ItownsView
